import Mathlib

/-!
Verification of the node lifecycle and fencing-reconciliation engine of
`cts/lab/ClusterManager.py` (Pacemaker's Cluster Test Suite).

The Python class is embedded shallowly:
* The `ShouldBeStatus` dictionary (the Status Table) is an association list
  `List (Name × String)` whose `lookupS`/`insertS` mimic Python `dict`
  access (`insertS` overwrites the first binding of the key, `lookupS`
  reads the first binding).
* External collaborators (remote executor `rsh`, the `StataCM` liveness
  probe, `cluster_stable`, `HasQuorum`, the pattern template catalog, the
  `re.search` matcher and the `LogWatcher.look` poll results) are oracles
  carried in an `Env` record; each distinct call site of a stateful probe
  gets its own oracle field so that successive calls may answer
  differently, exactly as the real collaborators may.
* Observable side effects (remote commands issued, watches armed,
  `logger.log` messages, waits) are recorded in an event trace inside
  `CMState`.
* Python exceptions (an unbound local, an out-of-range `del`) are modelled
  by `Except.error`; a Python `return None` is modelled by `Option.none`
  in the result, and a normal value by `some`.
Note: reading a `ShouldBeStatus` key that is absent would raise `KeyError`
in Python; the spec's invariant (§3) is that every node referenced has an
entry before it is read, so the embedding treats an absent entry as simply
"not equal to any status string", which agrees with Python on every run
exercised here (all tables used in theorems are total on the nodes read).
-/

namespace CM

abbrev Name := String

/-- First binding of a key in an association list (Python `dict` read). -/
def lookupS : List (Name × String) → Name → Option String
  | [], _ => none
  | (k, v) :: rest, n => if k = n then some v else lookupS rest n

/-- Overwrite the first binding of a key, or append it (Python `dict` write). -/
def insertS : List (Name × String) → Name → String → List (Name × String)
  | [], n, v => [(n, v)]
  | (k, w) :: rest, n, v =>
    if k = n then (k, v) :: rest else (k, w) :: insertS rest n v

/-- Observable side effects of the cluster manager. -/
inductive Event where
  /-- a remote command issued via `self.rsh` (node, command, synchronous) -/
  | cmd (node : Name) (command : String) (sync : Bool)
  /-- a `LogWatcher` armed via `setwatch` (watcher name, its patterns) -/
  | watchArmed (wname : String) (patterns : List String)
  /-- a blocking `lookforall` on a watcher -/
  | lookforall (wname : String)
  /-- `install_config` pushed to a node -/
  | installConfig (node : Name)
  /-- `ns.WaitForAllNodesToComeUp(nodes, 300)` -/
  | waitAllUp (nodes : List Name)
  /-- `ns.WaitForNodeToComeUp(node, DeadTime)` -/
  | waitUp (node : Name)
  /-- a `logger.log` message (debug output is not traced) -/
  | log (msg : String)
deriving Repr, DecidableEq

/-- The mutable state of one `ClusterManager` instance, plus the event trace. -/
structure CMState where
  /-- `self.ShouldBeStatus`: the Status Table -/
  shouldBeStatus : List (Name × String)
  /-- `self.__instance_errorstoignore` -/
  errorsToIgnore : List String
  /-- trace of observable effects, oldest first -/
  trace : List Event
deriving Repr, DecidableEq

/-- A `LogWatcher` session: the outstanding regex list and the predestined
results of successive `look` calls.  Each `look` consumes one element of
`polls`: `none` means the poll timed out with no match, `some (line, i)`
means the line matched and `whichmatch` was set to `i`. -/
structure Watch where
  regexes : List String
  polls : List (Option (String × Nat))
deriving Repr, DecidableEq

/-- `stonith.look(timeout)`: consume the next predestined poll result. -/
def Watch.look (w : Watch) : Option (String × Nat) × Watch :=
  match w.polls with
  | [] => (none, w)
  | r :: rest => (r, { w with polls := rest })

/-- Environment: cluster configuration, pattern templates and oracles for
the external collaborators, one oracle field per call site of a probe. -/
structure Env where
  /-- `self.Env["nodes"]` -/
  nodes : List Name
  /-- `self.HasQuorum(None)` inside `prepare_fencing_watcher` -/
  quorumAtPrepare : Bool
  /-- `self.HasQuorum(None)` inside `fencing_cleanup` -/
  quorumAtCleanup : Bool
  /-- `self.Env["at-boot"]` -/
  atBoot : Bool
  /-- truthiness of `self.templates["Pat:Fencing_ok"]` -/
  hasFencingOkPat : Bool
  /-- truthiness of `self.templates["Pat:Fencing_start"]` -/
  hasFencingStartPat : Bool
  /-- `self.templates["Pat:Fencing_ok"] % n` -/
  fencingOkPat : Name → String
  /-- `self.templates["Pat:Fencing_start"] % n` -/
  fencingStartPat : Name → String
  /-- `re.search(pattern, line)` truthiness -/
  reMatch : String → String → Bool
  /-- predestined `look` results of the stonith watcher built by
  `prepare_fencing_watcher` -/
  stonithPolls : List (Option (String × Nat))
  /-- `self.StataCM(peer)` first call in `fencing_cleanup`, gating only a sleep -/
  fenceProbe1 : Name → Bool
  /-- `self.StataCM(peer)` second call in `fencing_cleanup` -/
  fenceProbe2 : Name → Bool
  /-- exit code of `self.rsh(node, command)` -/
  rshRC : Name → String → Int
  /-- `self.templates["StartCmd"]` -/
  startCmd : String
  /-- `self.templates["StopCmd"]` -/
  stopCmd : String
  /-- `self.templates["RereadCmd"]` -/
  rereadCmd : String
  /-- `self.templates["BreakCommCmd"] % self.key_for_node(node)` -/
  breakCommCmd : Name → String
  /-- `self.templates["Pat:Local_started"] % node` -/
  patLocalStarted : Name → String
  /-- `self.templates["Pat:DC_started"] % node` -/
  patDCStarted : Name → String
  /-- `self.templates["Pat:NonDC_started"] % node` -/
  patNonDCStarted : Name → String
  /-- `self.templates["Pat:DC_IDLE"]` -/
  patDCIdle : String
  /-- `self.templates["Pat:InfraUp"] % node` -/
  patInfraUp : Name → String
  /-- `self.templates["Pat:PacemakerUp"] % node` -/
  patPacemakerUp : Name → String
  /-- `self.templates["Pat:They_up"] % (first, node)` -/
  patTheyUp : Name → Name → String
  /-- `self.StataCM(node)` at `StartaCM`'s was-already-started check -/
  statAlready : Name → Bool
  /-- `self.cluster_stable(DeadTime)` at the was-already-started check -/
  stableAlready : Name → Bool
  /-- `watch.lookforall()` result of `StartaCM`'s own watch -/
  watchResult : Name → Bool
  /-- `watch.unmatched` after that `lookforall` -/
  watchUnmatched : Name → List String
  /-- `self.cluster_stable(DeadTime)` after a successful `lookforall` -/
  stableAfterWatch : Name → Bool
  /-- `self.StataCM(node)` at `StartaCM`'s fallback success check -/
  statFallback : Name → Bool
  /-- `self.cluster_stable(DeadTime)` at the fallback success check -/
  stableFallback : Name → Bool
  /-- `watch.lookforall()` result of `startall`'s aggregate fast-start watch -/
  aggWatchResult : Bool
  /-- `watch.unmatched` of the aggregate fast-start watch -/
  aggUnmatched : List String
  /-- `self.cluster_stable()` at the end of quick-mode `startall` -/
  finalStable : Bool

/-- `self.upcount()`: how many configured nodes the Status Table says are up. -/
def upcount (env : Env) (tbl : List (Name × String)) : Nat :=
  (env.nodes.filter (fun n => lookupS tbl n = some "up")).length

/-- The `for n in self.Env["nodes"]` body of `fencing_cleanup`'s match loop
(lines 237-247): test one matched line against every peer's "fencing ok"
pattern, then (guarded by the peer not already being complete) its
"fencing start" pattern, updating `peer_state`, the loop-carried `peer`
variable and `__instance_errorstoignore`. -/
def scanPeers (env : Env) (line : String) :
    List Name →
    List (Name × String) × Option Name × List String →
    List (Name × String) × Option Name × List String
  | [], acc => acc
  | n :: rest, (ps, peer, errs) =>
    if env.reMatch (env.fencingOkPat n) line = true then
      scanPeers env line rest
        (insertS ps n "complete", some n, errs ++ [env.fencingOkPat n])
    else if lookupS ps n ≠ some "complete" ∧
        env.reMatch (env.fencingStartPat n) line = true then
      scanPeers env line rest
        (insertS ps n "in-progress", some n, errs ++ [env.fencingStartPat n])
    else
      scanPeers env line rest (ps, peer, errs)

/-- Result of `fencing_cleanup`.  `ret` is the Python return value
(`none` models Python `None`); `fenced` and `peerState` expose the
internal `peer_list` and `peer_state` of the pass for specification. -/
structure FCResult where
  ret : Option (List Name)
  fenced : List Name
  peerState : List (Name × String)
  watch : Option Watch
  st : CMState
deriving Repr, DecidableEq

/-- The `while shot:` match loop of `fencing_cleanup` (lines 230-257).
The Python local `peer` starts unbound (`none`); evaluating `if not peer`
while it is unbound raises `UnboundLocalError`, modelled by
`Except.error`.  `del stonith.regexes[stonith.whichmatch]` with an
out-of-range index would raise `IndexError`, likewise an error.  Fuel is
one more than the number of remaining polls, so it never runs out. -/
def fencingLoop (env : Env) :
    Nat → Watch → List (Name × String) → List Name → Option Name → CMState →
    Except String (Watch × List (Name × String) × List Name × CMState)
  | 0, _, _, _, _, _ => Except.error "out of fuel"
  | fuel + 1, w, ps, pl, peer, st =>
    match w.look with
    | (none, w1) => Except.ok (w1, ps, pl, st)
    | (some (line, idx), w1) =>
      if idx < w1.regexes.length then
        let w2 : Watch := { w1 with regexes := w1.regexes.eraseIdx idx }
        match scanPeers env line env.nodes (ps, peer, st.errorsToIgnore) with
        | (ps1, peer1, errs1) =>
          let st1 : CMState := { st with errorsToIgnore := errs1 }
          match peer1 with
          | none =>
            Except.error "UnboundLocalError: local variable peer referenced before assignment"
          | some p =>
            if p = "" then
              fencingLoop env fuel w2 ps1 pl peer1
                { st1 with trace :=
                    st1.trace ++ [Event.log ("ERROR: Unknown stonith match: " ++ line)] }
            else if p ∈ pl then
              fencingLoop env fuel w2 ps1 pl peer1 st1
            else
              fencingLoop env fuel w2 ps1 (pl ++ [p]) peer1 st1
      else
        Except.error "IndexError: list assignment index out of range"

/-- The drain loop body of `fencing_cleanup` (lines 270-274):
`while len(stonith.regexes) and shot:` given the last `look` result. -/
def drainAux : Nat → Watch → Option (String × Nat) → Except String Watch
  | _, w, none => Except.ok w
  | fuel, w, some (_, idx) =>
    if w.regexes.length = 0 then Except.ok w
    else
      match fuel with
      | 0 => Except.error "out of fuel"
      | fuel + 1 =>
        if idx < w.regexes.length then
          let w1 : Watch := { w with regexes := w.regexes.eraseIdx idx }
          match w1.look with
          | (shot, w2) => drainAux fuel w2 shot
        else
          Except.error "IndexError: list assignment index out of range"

/-- Lines 269-274 of `fencing_cleanup`: `shot = stonith.look(60)` followed
by the drain loop. -/
def drain (w : Watch) : Except String Watch :=
  match w.look with
  | (shot, w1) => drainAux (w1.polls.length + 1) w1 shot

/-- The `for peer in peer_list:` loop of `fencing_cleanup` (lines 259-287):
set the peer's expected status from the `at-boot` policy, drain the watch
while its fencing is still in progress, wait for reachability, and under
`at-boot` probe liveness (sleeping once between the two probes); a peer
that still is not running is a fatal error: log and return Python `None`
(the `Bool` is `false`), aborting the remaining peers. -/
def fencingPhase2 (env : Env) :
    List Name → Watch → List (Name × String) → CMState →
    Except String (Bool × Watch × CMState)
  | [], w, _, st => Except.ok (true, w, st)
  | p :: rest, w, ps, st =>
    let st1 : CMState :=
      { st with shouldBeStatus :=
          insertS st.shouldBeStatus p (if env.atBoot = true then "up" else "down") }
    let dw : Except String Watch :=
      if lookupS ps p = some "in-progress" then drain w else Except.ok w
    match dw with
    | Except.error e => Except.error e
    | Except.ok w1 =>
      let st2 : CMState := { st1 with trace := st1.trace ++ [Event.waitUp p] }
      if env.atBoot = true then
        -- `if not self.StataCM(peer): time.sleep(...)` has no modelled effect
        if env.fenceProbe2 p = true then
          fencingPhase2 env rest w1 ps st2
        else
          Except.ok (false, w1,
            { st2 with trace :=
                st2.trace ++
                  [Event.log ("ERROR: Peer " ++ p ++ " failed to restart after being fenced")] })
      else
        fencingPhase2 env rest w1 ps st2

/-- `fencing_cleanup(node, stonith)` (lines 208-288).  Returns the final
`FCResult`, or `Except.error` when the Python code would raise. -/
def fencing_cleanup (env : Env) (stonith : Option Watch) (st : CMState) :
    Except String FCResult :=
  match stonith with
  | none => Except.ok ⟨some [], [], [], none, st⟩
  | some w =>
    if env.quorumAtCleanup = false ∧ 2 < env.nodes.length then
      Except.ok ⟨some [], [], [], some w, st⟩
    else
      let ps0 := env.nodes.map (fun n => (n, "unknown"))
      match fencingLoop env (w.polls.length + 1) w ps0 [] none st with
      | Except.error e => Except.error e
      | Except.ok (w1, ps, pl, st1) =>
        match fencingPhase2 env pl w1 ps st1 with
        | Except.error e => Except.error e
        | Except.ok (good, w2, st2) =>
          Except.ok ⟨if good = true then some pl else none, pl, ps, some w2, st2⟩

/-- `prepare_fencing_watcher(name)` (lines 181-206): when quorum is absent
and both fencing templates exist, build the stonith pattern list (both
patterns of every peer not expected `up`), arm a `StartupFencing` watcher
over it and return it; otherwise return Python `None`. -/
def prepare_fencing_watcher (env : Env) (st : CMState) : Option Watch × CMState :=
  if env.quorumAtPrepare = true then (none, st)
  else if env.hasFencingStartPat = false then (none, st)
  else if env.hasFencingOkPat = false then (none, st)
  else
    let pats := env.nodes.foldr (fun peer acc =>
      if lookupS st.shouldBeStatus peer ≠ some "up" then
        env.fencingOkPat peer :: env.fencingStartPat peer :: acc
      else acc) []
    (some { regexes := pats, polls := env.stonithPolls },
     { st with trace := st.trace ++ [Event.watchArmed "StartupFencing" pats] })

/-- `StartaCM(node, verbose)` (lines 290-346).  The result is
`(some 1, _)` for a Python `return 1`, `(none, _)` for `return None`. -/
def StartaCM (env : Env) (st : CMState) (node : Name) :
    Except String (Option Nat × CMState) :=
  let st0 : CMState :=
    if (lookupS st.shouldBeStatus node).isNone then
      { st with shouldBeStatus := insertS st.shouldBeStatus node "down" }
    else st
  if lookupS st0.shouldBeStatus node ≠ some "down" then
    Except.ok (some 1, st0)
  else
    let patterns := [env.patLocalStarted node] ++
      (if upcount env st0.shouldBeStatus = 0 then [env.patDCStarted node]
       else [env.patNonDCStarted node])
    let st1 : CMState := { st0 with trace := st0.trace ++ [Event.installConfig node] }
    let st2 : CMState :=
      { st1 with shouldBeStatus := insertS st1.shouldBeStatus node "any" }
    if env.statAlready node = true ∧ env.stableAlready node = true then
      Except.ok (some 1,
        { st2 with trace := st2.trace ++ [Event.log (node ++ " was already started")] })
    else
      match prepare_fencing_watcher env st2 with
      | (stonith, st3) =>
        let st4 : CMState :=
          { st3 with trace := st3.trace ++ [Event.watchArmed "StartaCM" patterns] }
        let st5 : CMState :=
          { st4 with trace := st4.trace ++ [Event.cmd node env.startCmd true] }
        if env.rshRC node env.startCmd ≠ 0 then
          let st6 : CMState := { st5 with trace :=
              st5.trace ++ [Event.log ("Warn: Start command failed on node " ++ node)] }
          match fencing_cleanup env stonith st6 with
          | Except.error e => Except.error e
          | Except.ok r => Except.ok (none, r.st)
        else
          let st6 : CMState :=
            { st5 with shouldBeStatus := insertS st5.shouldBeStatus node "up" }
          let st7 : CMState :=
            { st6 with trace := st6.trace ++ [Event.lookforall "StartaCM"] }
          let warns := (env.watchUnmatched node).map
            (fun r => Event.log ("Warn: Startup pattern not found: " ++ r))
          let st8 : CMState := { st7 with trace := st7.trace ++ warns }
          if env.watchResult node = true ∧ env.stableAfterWatch node = true then
            match fencing_cleanup env stonith st8 with
            | Except.error e => Except.error e
            | Except.ok r => Except.ok (some 1, r.st)
          else if env.statFallback node = true ∧ env.stableFallback node = true then
            match fencing_cleanup env stonith st8 with
            | Except.error e => Except.error e
            | Except.ok r => Except.ok (some 1, r.st)
          else
            Except.ok (none, { st8 with trace :=
                st8.trace ++ [Event.log ("Warn: Start failed for node " ++ node)] })

/-- `StartaCMnoBlock(node, verbose)` (lines 348-358): push config, fire the
start command asynchronously, optimistically mark the node `up`. -/
def StartaCMnoBlock (env : Env) (st : CMState) (node : Name) : Nat × CMState :=
  let st1 : CMState := { st with trace :=
      st.trace ++ [Event.installConfig node, Event.cmd node env.startCmd false] }
  (1, { st1 with shouldBeStatus := insertS st1.shouldBeStatus node "up" })

/-- `StopaCM(node, verbose, force)` (lines 360-380). -/
def StopaCM (env : Env) (st : CMState) (node : Name) (force : Bool) :
    Option Nat × CMState :=
  if lookupS st.shouldBeStatus node ≠ some "up" ∧ force = false then
    (some 1, st)
  else
    let st1 : CMState :=
      { st with trace := st.trace ++ [Event.cmd node env.stopCmd true] }
    if env.rshRC node env.stopCmd = 0 then
      -- sets `down`, then calls `cluster_stable(DeadTime)` (result unused)
      (some 1, { st1 with shouldBeStatus := insertS st1.shouldBeStatus node "down" })
    else
      (none, { st1 with trace :=
          st1.trace ++ [Event.log ("ERROR: Could not stop on node " ++ node)] })

/-- `StopaCMnoBlock(node)` (lines 382-390). -/
def StopaCMnoBlock (env : Env) (st : CMState) (node : Name) : Nat × CMState :=
  let st1 : CMState :=
    { st with trace := st.trace ++ [Event.cmd node env.stopCmd false] }
  (1, { st1 with shouldBeStatus := insertS st1.shouldBeStatus node "down" })

/-- `RereadCM(node)` (lines 392-403): no Status Table mutation. -/
def RereadCM (env : Env) (st : CMState) (node : Name) : Option Nat × CMState :=
  let st1 : CMState :=
    { st with trace := st.trace ++ [Event.cmd node env.rereadCmd true] }
  if env.rshRC node env.rereadCmd = 0 then (some 1, st1)
  else
    (none, { st1 with trace :=
        st1.trace ++ [Event.log ("Could not force reread on node " ++ node)] })

/-- The aggregate pattern list built by quick-mode `startall`
(lines 425-431): cluster idle plus four per-node patterns, the last one
parameterized by the first node of the list. -/
def fastStartPats (env : Env) (first : Name) (nl : List Name) : List String :=
  [env.patDCIdle] ++ nl.foldr (fun n acc =>
    [env.patInfraUp n, env.patPacemakerUp n, env.patLocalStarted n,
     env.patTheyUp first n] ++ acc) []

/-- One iteration of `startall`'s initial wait loop (lines 414-416). -/
def waitStep (nl : List Name) (s : CMState) (n : Name) : CMState :=
  if lookupS s.shouldBeStatus n = some "down" then
    { s with trace := s.trace ++ [Event.waitAllUp nl] }
  else s

/-- One iteration of quick-mode `startall`'s asynchronous start loop
(lines 439-440). -/
def noBlockStep (env : Env) (t : CMState) (n : Name) : CMState :=
  (StartaCMnoBlock env t n).2

/-- `startall(nodelist, verbose, quick)` (lines 405-451).  In non-quick
mode the Python loop variable `node` holds the last element of the list
when `StartaCM(node)` is called; with an empty list it is unbound. -/
def startall (env : Env) (st : CMState) (nodelist : List Name) (quick : Bool) :
    Except String (Nat × CMState) :=
  let nl := if nodelist = [] then env.nodes else nodelist
  let st1 := nl.foldl (waitStep nl) st
  if quick = false then
    match nl.getLast? with
    | none => Except.error "NameError: name node is not defined"
    | some last =>
      match StartaCM env st1 last with
      | Except.error e => Except.error e
      | Except.ok (none, s) => Except.ok (0, s)
      | Except.ok (some _, s) => Except.ok (1, s)
  else
    match nl with
    | [] => Except.error "IndexError: list index out of range"
    | first :: _ =>
      let watchpats := fastStartPats env first nl
      let st2 := { st1 with trace :=
          st1.trace ++ [Event.watchArmed "fast-start" watchpats] }
      match StartaCM env st2 first with
      | Except.error e => Except.error e
      | Except.ok (none, s) => Except.ok (0, s)
      | Except.ok (some _, s) =>
        let s1 := nl.foldl (noBlockStep env) s
        let s2 := { s1 with trace := s1.trace ++ [Event.lookforall "fast-start"] }
        let aggWarns := env.aggUnmatched.map
          (fun r => Event.log ("Warn: Startup pattern not found: " ++ r))
        let s3 := { s2 with trace := s2.trace ++ aggWarns }
        if env.finalStable = true then Except.ok (1, s3)
        else Except.ok (0, { s3 with trace :=
            s3.trace ++ [Event.log "Cluster did not stabilize"] })

/-- One iteration of `stopall`'s loop (lines 463-466): stop the node when
it is believed `up` or `force` is set, folding a failed stop into a `0`
return value. -/
def stopallStep (env : Env) (force : Bool) (acc : Nat × CMState) (node : Name) :
    Nat × CMState :=
  if lookupS acc.2.shouldBeStatus node = some "up" ∨ force = true then
    match StopaCM env acc.2 node force with
    | (some _, s) => (acc.1, s)
    | (none, s) => (0, s)
  else acc

/-- `stopall(nodelist, verbose, force)` (lines 453-467).  The defaulted
`nodelist` is computed but the loop runs over `self.Env["nodes"]`. -/
def stopall (env : Env) (st : CMState) (nodelist : List Name) (force : Bool) :
    Nat × CMState :=
  let _nl := if nodelist = [] then env.nodes else nodelist
  env.nodes.foldl (stopallStep env force) (1, st)

/-- One iteration of `rereadall`'s loop (lines 479-481). -/
def rereadallStep (env : Env) (s : CMState) (node : Name) : CMState :=
  if lookupS s.shouldBeStatus node = some "up" then (RereadCM env s node).2
  else s

/-- `rereadall(nodelist)` (lines 469-481).  The defaulted `nodelist` is
computed but the loop runs over `self.Env["nodes"]`. -/
def rereadall (env : Env) (st : CMState) (nodelist : List Name) : CMState :=
  let _nl := if nodelist = [] then env.nodes else nodelist
  env.nodes.foldl (rereadallStep env) st

/-- The `for node in nodes:` loop of `isolate_node` (lines 504-512). -/
def isolateGo (env : Env) (target : Name) :
    List Name → CMState → Option Nat × CMState
  | [], st => (some 1, st)
  | n :: rest, st =>
    if n = target then isolateGo env target rest st
    else
      let st1 : CMState := { st with trace :=
          st.trace ++ [Event.cmd target (env.breakCommCmd n) true] }
      if env.rshRC target (env.breakCommCmd n) ≠ 0 then
        (none, { st1 with trace := st1.trace ++
            [Event.log ("Could not break the communication between " ++
              target ++ " and " ++ n)] })
      else isolateGo env target rest st1

/-- `isolate_node(target, nodes)` (lines 499-512). -/
def isolate_node (env : Env) (st : CMState) (target : Name) (nodes : List Name) :
    Option Nat × CMState :=
  let nl := if nodes = [] then env.nodes else nodes
  isolateGo env target nl st

/-- The pattern list built at the top of `StartaCM` (lines 303-309). -/
def startPatterns (env : Env) (tbl : List (Name × String)) (node : Name) : List String :=
  [env.patLocalStarted node] ++
    (if upcount env tbl = 0 then [env.patDCStarted node] else [env.patNonDCStarted node])

/-- Number of trace events satisfying a predicate. -/
def countEv (p : Event → Bool) (tr : List Event) : Nat := (tr.filter p).length

/-- Is this event a synchronous issue of the start command? -/
def isSyncStart (env : Env) : Event → Bool
  | Event.cmd _ c sync => c == env.startCmd && sync == true
  | _ => false

/-- Is this event an asynchronous (fire-and-forget) issue of the start command? -/
def isAsyncStart (env : Env) : Event → Bool
  | Event.cmd _ c sync => c == env.startCmd && sync == false
  | _ => false

/-- Is this event a blocking `lookforall` on the named watcher? -/
def isLookOn (wname : String) : Event → Bool
  | Event.lookforall n => n == wname
  | _ => false

/-- Is this event the arming of the named watcher? -/
def isArmOn (wname : String) : Event → Bool
  | Event.watchArmed n _ => n == wname
  | _ => false

/-- A concrete, fully cooperative environment used by witnesses and
counterexamples: every remote command succeeds, the cluster has quorum
throughout, every watch confirms, patterns are plain tag strings and the
regex matcher is string equality. -/
def defaultEnv : Env :=
  { nodes := ["n1", "n2", "n3"]
    quorumAtPrepare := true
    quorumAtCleanup := true
    atBoot := false
    hasFencingOkPat := true
    hasFencingStartPat := true
    fencingOkPat := fun n => "fence-ok " ++ n
    fencingStartPat := fun n => "fence-start " ++ n
    reMatch := fun pat line => pat == line
    stonithPolls := []
    fenceProbe1 := fun _ => true
    fenceProbe2 := fun _ => true
    rshRC := fun _ _ => 0
    startCmd := "start-cmd"
    stopCmd := "stop-cmd"
    rereadCmd := "reread-cmd"
    breakCommCmd := fun n => "break-comm " ++ n
    patLocalStarted := fun n => "local-started " ++ n
    patDCStarted := fun n => "dc-started " ++ n
    patNonDCStarted := fun n => "nondc-started " ++ n
    patDCIdle := "dc-idle"
    patInfraUp := fun n => "infra-up " ++ n
    patPacemakerUp := fun n => "pacemaker-up " ++ n
    patTheyUp := fun a b => "they-up " ++ a ++ " " ++ b
    statAlready := fun _ => false
    stableAlready := fun _ => false
    watchResult := fun _ => true
    watchUnmatched := fun _ => []
    stableAfterWatch := fun _ => true
    statFallback := fun _ => false
    stableFallback := fun _ => false
    aggWatchResult := true
    aggUnmatched := []
    finalStable := true }

/-- A state with an empty trace whose Status Table is the given list. -/
def mkState (tbl : List (Name × String)) : CMState :=
  { shouldBeStatus := tbl, errorsToIgnore := [], trace := [] }

/-! ### Association-list lemmas -/

theorem lookupS_insertS_self (tbl : List (Name × String)) (n : Name) (v : String) :
    lookupS (insertS tbl n v) n = some v := by
  induction tbl with
  | nil => simp [insertS, lookupS]
  | cons kv rest ih =>
    obtain ⟨k, w⟩ := kv
    by_cases h : k = n
    · simp [insertS, lookupS, h]
    · simp [insertS, lookupS, h, ih]

theorem lookupS_insertS_ne (tbl : List (Name × String)) (n m : Name) (v : String)
    (h : n ≠ m) : lookupS (insertS tbl n v) m = lookupS tbl m := by
  induction tbl with
  | nil => simp [insertS, lookupS, h]
  | cons kv rest ih =>
    obtain ⟨k, w⟩ := kv
    by_cases hk : k = n
    · subst hk
      simp [insertS, lookupS, h]
    · simp [insertS, lookupS, hk, ih]

theorem lookupS_map_unknown (l : List Name) (n : Name) (h : n ∈ l) :
    lookupS (l.map fun m => (m, "unknown")) n = some "unknown" := by
  induction l with
  | nil => cases h
  | cons m rest ih =>
    rcases List.mem_cons.mp h with h1 | h1
    · simp [lookupS, h1]
    · by_cases hm : m = n
      · simp [lookupS, hm]
      · simp [lookupS, hm, ih h1]

/-! ### C7: cleanup without quorum on a large cluster is a pure skip -/

/-- C7: if `fencing_cleanup` is called with a non-none watch session while
the cluster lacks quorum and more than two nodes are configured, it
returns an empty peer list, consumes no poll of the watch session and
leaves the session's outstanding pattern set (indeed the whole session
and the whole manager state) unchanged. -/
theorem fencing_cleanup_no_quorum_skips (env : Env) (w : Watch) (st : CMState)
    (hq : env.quorumAtCleanup = false) (hn : 2 < env.nodes.length) :
    fencing_cleanup env (some w) st = Except.ok ⟨some [], [], [], some w, st⟩ := by
  simp only [fencing_cleanup]
  rw [if_pos ⟨hq, hn⟩]

/-- Witness for C7 at a concrete three-node environment. -/
theorem fencing_cleanup_no_quorum_skips_witness :
    fencing_cleanup { defaultEnv with quorumAtCleanup := false }
        (some ⟨["r1"], [some ("x", 0)]⟩) (mkState []) =
      Except.ok ⟨some [], [], [], some ⟨["r1"], [some ("x", 0)]⟩, mkState []⟩ :=
  fencing_cleanup_no_quorum_skips _ _ _ rfl (by decide)

/-! ### C8: starting a node that is not expected down is a no-op success -/

/-- C8: `StartaCM` on a node whose Status Table entry exists and is not
`down` (in particular a node already `up`) returns success immediately
with the state byte-for-byte unchanged: no start command is issued, no
watch session is created or armed, and the Status Table is untouched.
Calling it again after a successful start is therefore a no-op success. -/
theorem startaCM_not_down_is_noop (env : Env) (st : CMState) (node : Name)
    (s : String) (hs : lookupS st.shouldBeStatus node = some s) (hne : s ≠ "down") :
    StartaCM env st node = Except.ok (some 1, st) := by
  simp [StartaCM, hs, hne]

/-- Witness for C8: a node already `up`. -/
theorem startaCM_not_down_is_noop_witness :
    StartaCM defaultEnv (mkState [("n1", "up")]) "n1" =
      Except.ok (some 1, mkState [("n1", "up")]) :=
  startaCM_not_down_is_noop defaultEnv (mkState [("n1", "up")]) "n1" "up" rfl
    (by decide)

/-! ### C3: an unrecognized stonith line as the first match of a pass -/

/-- A two-node environment whose matcher recognizes nothing: every polled
line is an unrecognized stonith match. -/
def envC3 : Env :=
  { defaultEnv with nodes := ["node1", "node2"], reMatch := fun _ _ => false }

/-- C3 (code bug): when the very first polled line of a `fencing_cleanup`
pass matches no peer's pattern, the Python local `peer` is still unbound
at `if not peer:`, so the pass raises `UnboundLocalError` instead of
logging the line and continuing as the spec requires. -/
theorem fencing_cleanup_unmatched_first_line_raises :
    fencing_cleanup envC3 (some ⟨["pat0"], [some ("bogus stonith line", 0)]⟩)
        (mkState []) =
      Except.error "UnboundLocalError: local variable peer referenced before assignment" := by
  rfl

/-! ### C1: status-table entries after successful stop / start -/

/-- C1 counterexample: a node whose entry is `any` (as left behind, e.g.,
by `StartaCM`'s failed-start path).  `StopaCM` returns success through its
not-`up`-and-no-force early return, yet the Status Table entry is `any`,
not `down` — refuting the claim that every successful `StopaCM` leaves the
entry `down`. -/
theorem stop_success_entry_not_down_counterexample :
    (StopaCM defaultEnv (mkState [("n1", "any")]) "n1" false).1 = some 1 ∧
    lookupS (StopaCM defaultEnv (mkState [("n1", "any")]) "n1" false).2.shouldBeStatus "n1"
      ≠ some "down" := by
  exact ⟨rfl, by decide⟩

/-! ### C9: isolate_node issues break commands in order, aborting at the
first failure -/

/-- The break-communication command events for a list of peers, in order. -/
def breakCmdList (env : Env) (target : Name) (l : List Name) : List Event :=
  l.map (fun q => Event.cmd target (env.breakCommCmd q) true)

/-- The failure log message of `isolate_node` (the trailing numeric exit
code of the Python format string is elided; it carries no information the
claims depend on). -/
def breakFailMsg (target n : Name) : String :=
  "Could not break the communication between " ++ target ++ " and " ++ n

theorem isolateGo_all_ok (env : Env) (target : Name) :
    ∀ (l : List Name) (st : CMState),
    (∀ p ∈ l, p ≠ target → env.rshRC target (env.breakCommCmd p) = 0) →
    isolateGo env target l st =
      (some 1, { st with trace :=
        st.trace ++ breakCmdList env target (l.filter (fun p => decide (p ≠ target))) }) := by
  intro l
  induction l with
  | nil => intro st _; simp [isolateGo, breakCmdList]
  | cons n rest ih =>
    intro st h
    by_cases hn : n = target
    · have hr := ih st (fun p hp => h p (List.mem_cons_of_mem _ hp))
      simp [isolateGo, hn, hr]
    · have hrc : env.rshRC target (env.breakCommCmd n) = 0 :=
        h n (List.mem_cons_self _ _) hn
      have hrc2 : ¬(env.rshRC target (env.breakCommCmd n) ≠ 0) := fun hc => hc hrc
      have hr := ih ({ st with trace :=
          st.trace ++ [Event.cmd target (env.breakCommCmd n) true] })
        (fun p hp hne => h p (List.mem_cons_of_mem _ hp) hne)
      simp [isolateGo, hn, if_neg hrc2, hr, breakCmdList, List.filter_cons]

theorem isolateGo_first_fail (env : Env) (target : Name) :
    ∀ (l : List Name) (st : CMState) (pre : List Name) (p : Name) (post : List Name),
    l.filter (fun q => decide (q ≠ target)) = pre ++ p :: post →
    (∀ q ∈ pre, env.rshRC target (env.breakCommCmd q) = 0) →
    env.rshRC target (env.breakCommCmd p) ≠ 0 →
    isolateGo env target l st =
      (none, { st with trace :=
        st.trace ++ breakCmdList env target (pre ++ [p]) ++
          [Event.log (breakFailMsg target p)] }) := by
  intro l
  induction l with
  | nil =>
    intro st pre p post hf _ _
    simp at hf
  | cons n rest ih =>
    intro st pre p post hf hpre hfail
    by_cases hn : n = target
    · rw [List.filter_cons_of_neg (by simp [hn])] at hf
      simp only [isolateGo, if_pos hn]
      exact ih st pre p post hf hpre hfail
    · rw [List.filter_cons_of_pos (by simp [hn])] at hf
      cases pre with
      | nil =>
        rw [List.nil_append] at hf
        obtain ⟨h1, h2⟩ := List.cons_eq_cons.mp hf
        subst h1
        simp [isolateGo, hn, if_pos hfail, breakCmdList, breakFailMsg]
      | cons q pre2 =>
        rw [List.cons_append] at hf
        obtain ⟨h1, h2⟩ := List.cons_eq_cons.mp hf
        subst h1
        have hrcq : env.rshRC target (env.breakCommCmd n) = 0 :=
          hpre n (List.mem_cons_self _ _)
        have hrc2 : ¬(env.rshRC target (env.breakCommCmd n) ≠ 0) := fun hc => hc hrcq
        have hrec := ih ({ st with trace :=
            st.trace ++ [Event.cmd target (env.breakCommCmd n) true] })
          pre2 p post h2 (fun r hr => hpre r (List.mem_cons_of_mem _ hr)) hfail
        simp [isolateGo, hn, if_neg hrc2, hrec, breakCmdList, breakFailMsg]

/-- C9: `isolate_node` issues one break-communication command per listed
peer distinct from the target, in list order (first conjunct: when every
command succeeds, the trace grows by exactly that command list and the
call succeeds); and it aborts at the first non-zero command, logging the
failure and leaving every later peer's command unissued (second
conjunct). -/
theorem isolate_node_order_and_abort (env : Env) (st : CMState) (target : Name)
    (nodes : List Name) (hne : nodes ≠ []) :
    ((∀ p ∈ nodes, p ≠ target → env.rshRC target (env.breakCommCmd p) = 0) →
      isolate_node env st target nodes =
        (some 1, { st with trace := st.trace ++ breakCmdList env target (nodes.filter (fun p => decide (p ≠ target))) }))
    ∧
    (∀ pre p post,
      nodes.filter (fun q => decide (q ≠ target)) = pre ++ p :: post →
      (∀ q ∈ pre, env.rshRC target (env.breakCommCmd q) = 0) →
      env.rshRC target (env.breakCommCmd p) ≠ 0 →
      isolate_node env st target nodes =
        (none, { st with trace :=
          st.trace ++ breakCmdList env target (pre ++ [p]) ++
            [Event.log (breakFailMsg target p)] })) := by
  constructor
  · intro h
    simp only [isolate_node, if_neg hne]
    exact isolateGo_all_ok env target nodes st h
  · intro pre p post hf hpre hfail
    simp only [isolate_node, if_neg hne]
    exact isolateGo_first_fail env target nodes st pre p post hf hpre hfail

/-- Environment for the C9 witness: breaking communication with `B`
fails, every other command succeeds. -/
def envC9 : Env :=
  { defaultEnv with
    breakCommCmd := fun n => "break-comm " ++ n
    rshRC := fun _ c => if c = "break-comm B" then 1 else 0 }

/-- Witness for C9: `Isolate("t", [A,B,C])` with a failure on the second
command issues the commands for `A` and `B` only, logs the failure and
returns failure; the command for `C` is never issued. -/
theorem isolate_node_order_and_abort_witness :
    isolate_node envC9 (mkState []) "t" ["A", "B", "C"] =
      (none, { shouldBeStatus := [], errorsToIgnore := [],
               trace := [Event.cmd "t" "break-comm A" true,
                         Event.cmd "t" "break-comm B" true,
                         Event.log "Could not break the communication between t and B"] }) := by
  have h := (isolate_node_order_and_abort envC9 (mkState []) "t" ["A", "B", "C"]
    (by decide)).2 ["A"] "B" ["C"] (by decide) (by decide) (by decide)
  rw [h]
  rfl

/-! ### C10: stopall and rereadall iterate over the configured node set -/

theorem StopaCM_trace_extends (env : Env) (st : CMState) (node : Name) (force : Bool) :
    ∃ tl, (StopaCM env st node force).2.trace = st.trace ++ tl := by
  by_cases hg : lookupS st.shouldBeStatus node ≠ some "up" ∧ force = false
  · exact ⟨[], by simp [StopaCM, if_pos hg]⟩
  · by_cases hrc : env.rshRC node env.stopCmd = 0
    · exact ⟨[Event.cmd node env.stopCmd true], by simp [StopaCM, if_neg hg, if_pos hrc]⟩
    · refine ⟨[Event.cmd node env.stopCmd true,
        Event.log ("ERROR: Could not stop on node " ++ node)], ?_⟩
      simp [StopaCM, if_neg hg, if_neg hrc]

theorem stopallStep_trace_extends (env : Env) (force : Bool) (acc : Nat × CMState)
    (node : Name) :
    ∃ tl, (stopallStep env force acc node).2.trace = acc.2.trace ++ tl := by
  unfold stopallStep
  by_cases hg : lookupS acc.2.shouldBeStatus node = some "up" ∨ force = true
  · rw [if_pos hg]
    obtain ⟨tl, htl⟩ := StopaCM_trace_extends env acc.2 node force
    rcases hs : StopaCM env acc.2 node force with ⟨r, s⟩
    cases r with
    | none => exact ⟨tl, by rw [hs] at htl; simpa using htl⟩
    | some k => exact ⟨tl, by rw [hs] at htl; simpa using htl⟩
  · exact ⟨[], by rw [if_neg hg]; simp⟩

theorem stopall_fold_trace_extends (env : Env) (force : Bool) :
    ∀ (l : List Name) (acc : Nat × CMState),
    ∃ tl, (l.foldl (stopallStep env force) acc).2.trace = acc.2.trace ++ tl := by
  intro l
  induction l with
  | nil => exact fun acc => ⟨[], by simp⟩
  | cons n rest ih =>
    intro acc
    obtain ⟨tl1, h1⟩ := stopallStep_trace_extends env force acc n
    obtain ⟨tl2, h2⟩ := ih (stopallStep env force acc n)
    exact ⟨tl1 ++ tl2, by simp [List.foldl_cons, h2, h1]⟩

theorem StopaCM_force_issues_cmd (env : Env) (st : CMState) (node : Name) :
    Event.cmd node env.stopCmd true ∈ (StopaCM env st node true).2.trace := by
  have hg : ¬(lookupS st.shouldBeStatus node ≠ some "up" ∧ true = false) := by
    intro hc
    exact absurd hc.2 (by decide)
  by_cases hrc : env.rshRC node env.stopCmd = 0
  · simp [StopaCM, if_neg hg, if_pos hrc]
  · simp [StopaCM, if_neg hg, if_neg hrc]

theorem stopall_fold_force_cmd (env : Env) :
    ∀ (l : List Name) (acc : Nat × CMState) (n : Name), n ∈ l →
    Event.cmd n env.stopCmd true ∈ (l.foldl (stopallStep env true) acc).2.trace := by
  intro l
  induction l with
  | nil => intro acc n h; cases h
  | cons m rest ih =>
    intro acc n h
    rcases List.mem_cons.mp h with h1 | h1
    · subst h1
      obtain ⟨tl, htl⟩ := stopall_fold_trace_extends env true rest (stopallStep env true acc n)
      rw [List.foldl_cons, htl]
      apply List.mem_append_left
      have hstep : Event.cmd n env.stopCmd true ∈ (stopallStep env true acc n).2.trace := by
        unfold stopallStep
        rw [if_pos (Or.inr rfl)]
        have := StopaCM_force_issues_cmd env acc.2 n
        rcases hs : StopaCM env acc.2 n true with ⟨r, s⟩
        cases r with
        | none => rw [hs] at this; simpa using this
        | some k => rw [hs] at this; simpa using this
      exact hstep
    · rw [List.foldl_cons]
      exact ih _ n h1

theorem RereadCM_keeps_status (env : Env) (s : CMState) (node : Name) :
    (RereadCM env s node).2.shouldBeStatus = s.shouldBeStatus := by
  by_cases hrc : env.rshRC node env.rereadCmd = 0
  · simp [RereadCM, if_pos hrc]
  · simp [RereadCM, if_neg hrc]

theorem rereadallStep_keeps_status (env : Env) (s : CMState) (node : Name) :
    (rereadallStep env s node).shouldBeStatus = s.shouldBeStatus := by
  unfold rereadallStep
  by_cases hg : lookupS s.shouldBeStatus node = some "up"
  · rw [if_pos hg]
    exact RereadCM_keeps_status env s node
  · rw [if_neg hg]

theorem rereadall_fold_trace_extends (env : Env) :
    ∀ (l : List Name) (s : CMState),
    ∃ tl, (l.foldl (rereadallStep env) s).trace = s.trace ++ tl := by
  intro l
  induction l with
  | nil => exact fun s => ⟨[], by simp⟩
  | cons n rest ih =>
    intro s
    obtain ⟨tl2, h2⟩ := ih (rereadallStep env s n)
    have h1 : ∃ tl1, (rereadallStep env s n).trace = s.trace ++ tl1 := by
      unfold rereadallStep
      by_cases hg : lookupS s.shouldBeStatus n = some "up"
      · rw [if_pos hg]
        by_cases hrc : env.rshRC n env.rereadCmd = 0
        · exact ⟨[Event.cmd n env.rereadCmd true], by simp [RereadCM, if_pos hrc]⟩
        · exact ⟨[Event.cmd n env.rereadCmd true,
            Event.log ("Could not force reread on node " ++ n)],
            by simp [RereadCM, if_neg hrc]⟩
      · exact ⟨[], by rw [if_neg hg]; simp⟩
    obtain ⟨tl1, h1⟩ := h1
    exact ⟨tl1 ++ tl2, by simp [List.foldl_cons, h2, h1]⟩

theorem rereadall_fold_cmd (env : Env) :
    ∀ (l : List Name) (s : CMState) (n : Name), n ∈ l →
    lookupS s.shouldBeStatus n = some "up" →
    Event.cmd n env.rereadCmd true ∈ (l.foldl (rereadallStep env) s).trace := by
  intro l
  induction l with
  | nil => intro s n h; cases h
  | cons m rest ih =>
    intro s n h hup
    rcases List.mem_cons.mp h with h1 | h1
    · subst h1
      obtain ⟨tl, htl⟩ := rereadall_fold_trace_extends env rest (rereadallStep env s n)
      rw [List.foldl_cons, htl]
      apply List.mem_append_left
      unfold rereadallStep
      rw [if_pos hup]
      by_cases hrc : env.rshRC n env.rereadCmd = 0
      · simp [RereadCM, if_pos hrc]
      · simp [RereadCM, if_neg hrc]
    · rw [List.foldl_cons]
      have hup2 : lookupS (rereadallStep env s m).shouldBeStatus n = some "up" := by
        rw [rereadallStep_keeps_status]
        exact hup
      exact ih _ n h1 hup2

/-- C10: `stopall` and `rereadall` iterate over the configured cluster
node set, not the `nodelist` argument: the argument is irrelevant to the
result (first two conjuncts, for any two node lists, in particular any
proper subset versus the full set), `stopall` with `force` issues a stop
command for every configured node (third conjunct), and `rereadall`
issues a reread command for every configured node believed `up` (fourth
conjunct). -/
theorem stopall_rereadall_iterate_env_nodes (env : Env) (st : CMState)
    (nl1 nl2 : List Name) (force : Bool) (n : Name) :
    stopall env st nl1 force = stopall env st nl2 force ∧
    rereadall env st nl1 = rereadall env st nl2 ∧
    (n ∈ env.nodes → Event.cmd n env.stopCmd true ∈ (stopall env st nl1 true).2.trace) ∧
    (n ∈ env.nodes → lookupS st.shouldBeStatus n = some "up" →
      Event.cmd n env.rereadCmd true ∈ (rereadall env st nl1).trace) := by
  refine ⟨rfl, rfl, ?_, ?_⟩
  · intro hmem
    exact stopall_fold_force_cmd env env.nodes (1, st) n hmem
  · intro hmem hup
    exact rereadall_fold_cmd env env.nodes st n hmem hup

/-- Witness for C10 at a three-node environment with `nodelist` a proper
subset: the stop command still reaches `n2`, and the reread command
reaches the `up` node `n2`. -/
theorem stopall_rereadall_iterate_env_nodes_witness :
    (Event.cmd "n2" defaultEnv.stopCmd true ∈
      (stopall defaultEnv (mkState [("n1", "down"), ("n2", "up"), ("n3", "down")])
        ["n1"] true).2.trace) ∧
    (Event.cmd "n2" defaultEnv.rereadCmd true ∈
      (rereadall defaultEnv (mkState [("n1", "down"), ("n2", "up"), ("n3", "down")])
        ["n1"]).trace) :=
  ⟨(stopall_rereadall_iterate_env_nodes defaultEnv
      (mkState [("n1", "down"), ("n2", "up"), ("n3", "down")]) ["n1"] ["n1"] true "n2").2.2.1
      (by decide),
   (stopall_rereadall_iterate_env_nodes defaultEnv
      (mkState [("n1", "down"), ("n2", "up"), ("n3", "down")]) ["n1"] ["n1"] true "n2").2.2.2
      (by decide) rfl⟩

/-! ### C6: the reported peer list never contains duplicates -/

theorem fencingLoop_nodup (env : Env) :
    ∀ (fuel : Nat) (w : Watch) (ps : List (Name × String)) (pl : List Name)
      (peer : Option Name) (st : CMState)
      (res : Watch × List (Name × String) × List Name × CMState),
    pl.Nodup → fencingLoop env fuel w ps pl peer st = Except.ok res →
    res.2.2.1.Nodup := by
  intro fuel
  induction fuel with
  | zero =>
    intro w ps pl peer st res hnd h
    exact Except.noConfusion h
  | succ fuel ih =>
    intro w ps pl peer st res hnd h
    simp only [fencingLoop] at h
    split at h
    · cases h
      exact hnd
    · split at h
      · split at h
        · exact Except.noConfusion h
        · split at h
          · exact ih _ _ _ _ _ _ hnd h
          · split at h
            · exact ih _ _ _ _ _ _ hnd h
            · rename_i hmem
              refine ih _ _ _ _ _ _ ?_ h
              simp [List.nodup_append, hnd, hmem]
      · exact Except.noConfusion h

/-- C6: the peer list a successful `fencing_cleanup` pass returns contains
no duplicates — a peer already in the list is never appended again, even
when both its started and completed patterns match during the pass. -/
theorem fencing_cleanup_result_nodup (env : Env) (stonith : Option Watch)
    (st : CMState) (r : FCResult) (h : fencing_cleanup env stonith st = Except.ok r)
    (l : List Name) (hl : r.ret = some l) : l.Nodup := by
  cases stonith with
  | none =>
    simp only [fencing_cleanup] at h
    cases h
    have hle : l = [] := by simpa using hl.symm
    subst hle
    exact List.nodup_nil
  | some w =>
    simp only [fencing_cleanup] at h
    by_cases hq : env.quorumAtCleanup = false ∧ 2 < env.nodes.length
    · rw [if_pos hq] at h
      cases h
      have hle : l = [] := by simpa using hl.symm
      subst hle
      exact List.nodup_nil
    · rw [if_neg hq] at h
      split at h
      · exact Except.noConfusion h
      · rename_i w1 ps pl st1 hloop
        split at h
        · exact Except.noConfusion h
        · rename_i good w2 st2 hph
          cases h
          cases good with
          | false => simp at hl
          | true =>
            have hple : l = pl := by simpa using hl.symm
            subst hple
            exact fencingLoop_nodup env _ _ _ _ _ _ _ List.nodup_nil hloop

/-- Watch session for the C6 witness: one poll matching peer n2's
completed pattern. -/
def wC6w : Watch := ⟨["fence-ok n2", "fence-start n2"], [some ("fence-ok n2", 0)]⟩

/-- Initial state for the C6 witness. -/
def stC6w : CMState := mkState [("n1", "up"), ("n2", "down"), ("n3", "up")]

/-- The concrete result of the C6 witness run. -/
def rC6w : FCResult :=
  match fencing_cleanup defaultEnv (some wC6w) stC6w with
  | Except.ok r => r
  | Except.error _ => ⟨none, [], [], none, stC6w⟩

/-- Witness for C6: a pass that identifies peer n2 returns the
duplicate-free list [n2]. -/
theorem fencing_cleanup_result_nodup_witness : List.Nodup ["n2"] :=
  fencing_cleanup_result_nodup defaultEnv (some wC6w) stC6w rC6w rfl ["n2"] rfl

/-! ### C5: status of fenced peers follows the at-boot policy; a peer that
fails to restart is a fatal abort -/

theorem fencingLoop_keeps_status (env : Env) :
    ∀ (fuel : Nat) (w : Watch) (ps : List (Name × String)) (pl : List Name)
      (peer : Option Name) (st : CMState)
      (res : Watch × List (Name × String) × List Name × CMState),
    fencingLoop env fuel w ps pl peer st = Except.ok res →
    res.2.2.2.shouldBeStatus = st.shouldBeStatus := by
  intro fuel
  induction fuel with
  | zero =>
    intro w ps pl peer st res h
    exact Except.noConfusion h
  | succ fuel ih =>
    intro w ps pl peer st res h
    simp only [fencingLoop] at h
    split at h
    · cases h; rfl
    · split at h
      · split at h
        · exact Except.noConfusion h
        · split at h
          · exact (ih _ _ _ _ _ _ h).trans rfl
          · split at h
            · exact (ih _ _ _ _ _ _ h).trans rfl
            · exact (ih _ _ _ _ _ _ h).trans rfl
      · exact Except.noConfusion h

theorem fencingPhase2_status_outside (env : Env) :
    ∀ (l : List Name) (w : Watch) (ps : List (Name × String)) (st : CMState)
      (res : Bool × Watch × CMState) (q : Name),
    fencingPhase2 env l w ps st = Except.ok res → q ∉ l →
    lookupS res.2.2.shouldBeStatus q = lookupS st.shouldBeStatus q := by
  intro l
  induction l with
  | nil =>
    intro w ps st res q h _
    cases h; rfl
  | cons p rest ih =>
    intro w ps st res q h hq
    have hqp : p ≠ q := fun hc => hq (hc ▸ List.mem_cons_self _ _)
    have hqrest : q ∉ rest := fun hc => hq (List.mem_cons_of_mem _ hc)
    simp only [fencingPhase2] at h
    split at h
    · exact Except.noConfusion h
    · rename_i w1 heq
      split at h
      · split at h
        · have := ih _ _ _ _ _ h hqrest
          rw [this]
          exact lookupS_insertS_ne _ _ _ _ hqp
        · cases h
          exact lookupS_insertS_ne _ _ _ _ hqp
      · have := ih _ _ _ _ _ h hqrest
        rw [this]
        exact lookupS_insertS_ne _ _ _ _ hqp

theorem fencingPhase2_status_mem (env : Env) :
    ∀ (l : List Name) (w : Watch) (ps : List (Name × String)) (st : CMState)
      (res : Bool × Watch × CMState),
    fencingPhase2 env l w ps st = Except.ok res → res.1 = true → l.Nodup →
    ∀ p ∈ l, lookupS res.2.2.shouldBeStatus p =
      some (if env.atBoot = true then "up" else "down") := by
  intro l
  induction l with
  | nil =>
    intro w ps st res h _ _ p hp
    cases hp
  | cons a rest ih =>
    intro w ps st res h hgood hnd p hp
    have hnotmem : a ∉ rest := (List.nodup_cons.mp hnd).1
    have hndr : rest.Nodup := (List.nodup_cons.mp hnd).2
    simp only [fencingPhase2] at h
    split at h
    · exact Except.noConfusion h
    · rename_i w1 heq
      rcases List.mem_cons.mp hp with h1 | h1
      · subst h1
        split at h
        · split at h
          · rename_i hb hpr
            have hout := fencingPhase2_status_outside env rest _ _ _ _ p h hnotmem
            rw [hout, if_pos hb]
            exact lookupS_insertS_self _ _ _
          · cases h
            exact absurd hgood (by simp)
        · rename_i hb
          have hout := fencingPhase2_status_outside env rest _ _ _ _ p h hnotmem
          rw [hout, if_neg hb]
          exact lookupS_insertS_self _ _ _
      · split at h
        · split at h
          · exact ih _ _ _ _ h hgood hndr p h1
          · cases h
            exact absurd hgood (by simp)
        · exact ih _ _ _ _ h hgood hndr p h1

theorem fencingPhase2_abort (env : Env) (hboot : env.atBoot = true) :
    ∀ (pre : List Name) (l : List Name) (w : Watch) (ps : List (Name × String))
      (st : CMState) (res : Bool × Watch × CMState) (p : Name) (post : List Name),
    l = pre ++ p :: post →
    fencingPhase2 env l w ps st = Except.ok res →
    (∀ q ∈ pre, env.fenceProbe2 q = true) →
    env.fenceProbe2 p = false →
    res.1 = false ∧
    Event.log ("ERROR: Peer " ++ p ++ " failed to restart after being fenced")
      ∈ res.2.2.trace ∧
    (l.Nodup → lookupS res.2.2.shouldBeStatus p = some "up") ∧
    (l.Nodup → ∀ q ∈ post, lookupS res.2.2.shouldBeStatus q =
      lookupS st.shouldBeStatus q) := by
  intro pre
  induction pre with
  | nil =>
    intro l w ps st res p post hl h hpre hfail
    subst hl
    simp only [fencingPhase2] at h
    split at h
    · exact Except.noConfusion h
    · rename_i w1 heq
      rw [if_pos hboot] at h
      rw [hfail] at h
      simp only [Bool.false_eq_true, if_false] at h
      cases h
      refine ⟨rfl, ?_, ?_, ?_⟩
      · apply List.mem_append_right
        exact List.mem_singleton.mpr rfl
      · intro _
        simp only [hboot, if_pos rfl]
        exact lookupS_insertS_self _ _ _
      · intro hnd q hq
        have hqp : p ≠ q := by
          intro hc
          subst hc
          exact (List.nodup_cons.mp hnd).1 hq
        exact lookupS_insertS_ne _ _ _ _ hqp
  | cons a pre2 ih =>
    intro l w ps st res p post hl h hpre hfail
    subst hl
    simp only [fencingPhase2] at h
    split at h
    · exact Except.noConfusion h
    · rename_i w1 heq
      rw [if_pos hboot, hpre a (List.mem_cons_self _ _)] at h
      simp only [if_pos rfl] at h
      have hrec := ih (pre2 ++ p :: post) _ _ _ _ p post rfl h
        (fun q hq => hpre q (List.mem_cons_of_mem _ hq)) hfail
      refine ⟨hrec.1, hrec.2.1, ?_, ?_⟩
      · intro hnd
        exact hrec.2.2.1 (List.nodup_cons.mp hnd).2
      · intro hnd q hq
        have hup := hrec.2.2.2 (List.nodup_cons.mp hnd).2 q hq
        rw [hup]
        have haq : a ≠ q := by
          intro hc
          subst hc
          exact (List.nodup_cons.mp hnd).1
            (List.mem_append_right _ (List.mem_cons_of_mem _ hq))
        exact lookupS_insertS_ne _ _ _ _ haq

/-- C5: for every peer that `fencing_cleanup` identifies as fenced, the
Status Table entry follows the `at-boot` policy: with `at-boot` false a
successful pass leaves every identified peer `down`; with `at-boot` true
a successful pass leaves every identified peer `up`; and when an
identified peer's second liveness probe (after the `StartTime` sleep)
fails under `at-boot`, the call logs the fatal restart error, returns
Python `None`, leaves that peer's entry `up`, and aborts the remaining
cleanup — every later identified peer's entry is left exactly as it was
before the call. -/
theorem fencing_cleanup_at_boot_policy (env : Env) (stonith : Option Watch)
    (st : CMState) (r : FCResult)
    (h : fencing_cleanup env stonith st = Except.ok r) :
    (env.atBoot = false → ∀ l, r.ret = some l →
      ∀ p ∈ l, lookupS r.st.shouldBeStatus p = some "down") ∧
    (env.atBoot = true → ∀ l, r.ret = some l →
      ∀ p ∈ l, lookupS r.st.shouldBeStatus p = some "up") ∧
    (env.atBoot = true → ∀ pre p post, r.fenced = pre ++ p :: post →
      (∀ q ∈ pre, env.fenceProbe2 q = true) → env.fenceProbe2 p = false →
      r.ret = none ∧
      Event.log ("ERROR: Peer " ++ p ++ " failed to restart after being fenced")
        ∈ r.st.trace ∧
      lookupS r.st.shouldBeStatus p = some "up" ∧
      ∀ q ∈ post, lookupS r.st.shouldBeStatus q = lookupS st.shouldBeStatus q) := by
  cases stonith with
  | none =>
    simp only [fencing_cleanup] at h
    cases h
    refine ⟨?_, ?_, ?_⟩
    · intro _ l hl p hp
      have hle : l = [] := by simpa using hl.symm
      subst hle
      cases hp
    · intro _ l hl p hp
      have hle : l = [] := by simpa using hl.symm
      subst hle
      cases hp
    · intro _ pre p post hf
      exact absurd hf (by simp)
  | some w =>
    simp only [fencing_cleanup] at h
    by_cases hq : env.quorumAtCleanup = false ∧ 2 < env.nodes.length
    · rw [if_pos hq] at h
      cases h
      refine ⟨?_, ?_, ?_⟩
      · intro _ l hl p hp
        have hle : l = [] := by simpa using hl.symm
        subst hle
        cases hp
      · intro _ l hl p hp
        have hle : l = [] := by simpa using hl.symm
        subst hle
        cases hp
      · intro _ pre p post hf
        exact absurd hf (by simp)
    · rw [if_neg hq] at h
      split at h
      · exact Except.noConfusion h
      · rename_i w1 ps pl st1 hloop
        split at h
        · exact Except.noConfusion h
        · rename_i good w2 st2 hph
          cases h
          have hnd : pl.Nodup :=
            fencingLoop_nodup env _ _ _ _ _ _ _ List.nodup_nil hloop
          have hst1 : st1.shouldBeStatus = st.shouldBeStatus :=
            fencingLoop_keeps_status env _ _ _ _ _ _ _ hloop
          refine ⟨?_, ?_, ?_⟩
          · intro hb l hl p hp
            cases good with
            | false => simp at hl
            | true =>
              have hple : l = pl := by simpa using hl.symm
              subst hple
              have := fencingPhase2_status_mem env l _ _ _ _ hph rfl hnd p hp
              rwa [hb] at this
          · intro hb l hl p hp
            cases good with
            | false => simp at hl
            | true =>
              have hple : l = pl := by simpa using hl.symm
              subst hple
              have := fencingPhase2_status_mem env l _ _ _ _ hph rfl hnd p hp
              rwa [hb] at this
          · intro hb pre p post hf hpre hfail
            have habort := fencingPhase2_abort env hb pre pl _ _ _ _ p post hf hph
              hpre hfail
            refine ⟨?_, habort.2.1, habort.2.2.1 hnd, ?_⟩
            · cases good with
              | false => rfl
              | true => exact absurd habort.1 (by simp)
            · intro q hq
              have := habort.2.2.2 hnd q hq
              rwa [hst1] at this

/-- Watch session for the C5 witness runs: one poll matching peer n2's
completed pattern. -/
def wC5w : Watch := ⟨["fence-ok n2", "fence-start n2"], [some ("fence-ok n2", 0)]⟩

/-- Environment for the fatal branch of the C5 witness: `at-boot` set and
the fenced peer's liveness probe keeps failing. -/
def envC5b : Env := { defaultEnv with atBoot := true, fenceProbe2 := fun _ => false }

/-- Result of the C5 witness run with `at-boot` false. -/
def rC5a : FCResult :=
  match fencing_cleanup defaultEnv (some wC5w) stC6w with
  | Except.ok r => r
  | Except.error _ => ⟨none, [], [], none, stC6w⟩

/-- Result of the C5 witness run with `at-boot` true and a dead peer. -/
def rC5b : FCResult :=
  match fencing_cleanup envC5b (some wC5w) stC6w with
  | Except.ok r => r
  | Except.error _ => ⟨none, [], [], none, stC6w⟩

/-- Witness for C5: with `at-boot` false the fenced peer n2 ends `down`;
with `at-boot` true and a peer that never restarts, the pass returns
`None`, logs the fatal error and leaves the peer `up`. -/
theorem fencing_cleanup_at_boot_policy_witness :
    lookupS rC5a.st.shouldBeStatus "n2" = some "down" ∧
    (rC5b.ret = none ∧
      Event.log "ERROR: Peer n2 failed to restart after being fenced" ∈ rC5b.st.trace ∧
      lookupS rC5b.st.shouldBeStatus "n2" = some "up") := by
  constructor
  · exact (fencing_cleanup_at_boot_policy defaultEnv (some wC5w) stC6w rC5a rfl).1
      rfl ["n2"] rfl "n2" (by decide)
  · have h := (fencing_cleanup_at_boot_policy envC5b (some wC5w) stC6w rC5b rfl).2.2
      rfl [] "n2" [] rfl (by intro q hq; cases hq) rfl
    exact ⟨h.1, h.2.1, h.2.2.1⟩

/-! ### C4: a started-then-completed sequence for one peer -/

theorem scanPeers_no_match (env : Env) (line : String) :
    ∀ (ns : List Name) (ps : List (Name × String)) (peer : Option Name)
      (errs : List String),
    (∀ n ∈ ns, env.reMatch (env.fencingOkPat n) line = false) →
    (∀ n ∈ ns, env.reMatch (env.fencingStartPat n) line = false) →
    scanPeers env line ns (ps, peer, errs) = (ps, peer, errs) := by
  intro ns
  induction ns with
  | nil => intro ps peer errs _ _; rfl
  | cons n rest ih =>
    intro ps peer errs hok hst
    have h1 : ¬(env.reMatch (env.fencingOkPat n) line = true) := by
      rw [hok n (List.mem_cons_self _ _)]
      simp
    have h2 : ¬(lookupS ps n ≠ some "complete" ∧
        env.reMatch (env.fencingStartPat n) line = true) := by
      rw [hst n (List.mem_cons_self _ _)]
      simp
    simp only [scanPeers, if_neg h1, if_neg h2]
    exact ih ps peer errs (fun m hm => hok m (List.mem_cons_of_mem _ hm))
      (fun m hm => hst m (List.mem_cons_of_mem _ hm))

theorem scanPeers_start_only (env : Env) (line : String) (B : Name) :
    ∀ (ns : List Name), ns.Nodup → B ∈ ns →
    (∀ n ∈ ns, env.reMatch (env.fencingOkPat n) line = false) →
    (∀ n ∈ ns, env.reMatch (env.fencingStartPat n) line = true ↔ n = B) →
    ∀ (ps : List (Name × String)) (peer : Option Name) (errs : List String),
    lookupS ps B ≠ some "complete" →
    scanPeers env line ns (ps, peer, errs) =
      (insertS ps B "in-progress", some B, errs ++ [env.fencingStartPat B]) := by
  intro ns
  induction ns with
  | nil => intro _ hB; cases hB
  | cons n rest ih =>
    intro hnd hB hok hst ps peer errs hlook
    have hokn : ¬(env.reMatch (env.fencingOkPat n) line = true) := by
      rw [hok n (List.mem_cons_self _ _)]
      simp
    by_cases hnB : n = B
    · subst hnB
      have hstn : env.reMatch (env.fencingStartPat n) line = true :=
        (hst n (List.mem_cons_self _ _)).mpr rfl
      simp only [scanPeers, if_neg hokn, if_pos (And.intro hlook hstn)]
      have hnrest : n ∉ rest := (List.nodup_cons.mp hnd).1
      apply scanPeers_no_match
      · intro m hm
        exact hok m (List.mem_cons_of_mem _ hm)
      · intro m hm
        have hmn : m ≠ n := fun hc => hnrest (hc ▸ hm)
        by_cases hr : env.reMatch (env.fencingStartPat m) line = true
        · exact absurd ((hst m (List.mem_cons_of_mem _ hm)).mp hr) hmn
        · simpa using hr
    · have hstn : ¬(lookupS ps n ≠ some "complete" ∧
          env.reMatch (env.fencingStartPat n) line = true) := by
        intro hc
        exact hnB ((hst n (List.mem_cons_self _ _)).mp hc.2)
      simp only [scanPeers, if_neg hokn, if_neg hstn]
      have hBrest : B ∈ rest := by
        rcases List.mem_cons.mp hB with h | h
        · exact absurd h.symm hnB
        · exact h
      exact ih (List.nodup_cons.mp hnd).2 hBrest
        (fun m hm => hok m (List.mem_cons_of_mem _ hm))
        (fun m hm => hst m (List.mem_cons_of_mem _ hm)) ps peer errs hlook

theorem scanPeers_ok_only (env : Env) (line : String) (B : Name) :
    ∀ (ns : List Name), ns.Nodup → B ∈ ns →
    (∀ n ∈ ns, env.reMatch (env.fencingOkPat n) line = true ↔ n = B) →
    (∀ n ∈ ns, env.reMatch (env.fencingStartPat n) line = false) →
    ∀ (ps : List (Name × String)) (peer : Option Name) (errs : List String),
    scanPeers env line ns (ps, peer, errs) =
      (insertS ps B "complete", some B, errs ++ [env.fencingOkPat B]) := by
  intro ns
  induction ns with
  | nil => intro _ hB; cases hB
  | cons n rest ih =>
    intro hnd hB hok hst ps peer errs
    by_cases hnB : n = B
    · subst hnB
      have hokn : env.reMatch (env.fencingOkPat n) line = true :=
        (hok n (List.mem_cons_self _ _)).mpr rfl
      simp only [scanPeers, if_pos hokn]
      have hnrest : n ∉ rest := (List.nodup_cons.mp hnd).1
      apply scanPeers_no_match
      · intro m hm
        by_cases hr : env.reMatch (env.fencingOkPat m) line = true
        · exact absurd ((hok m (List.mem_cons_of_mem _ hm)).mp hr)
            (fun hc => hnrest (hc ▸ hm))
        · simpa using hr
      · intro m hm
        exact hst m (List.mem_cons_of_mem _ hm)
    · have hokn : ¬(env.reMatch (env.fencingOkPat n) line = true) := by
        intro hc
        exact hnB ((hok n (List.mem_cons_self _ _)).mp hc)
      have hstn : ¬(lookupS ps n ≠ some "complete" ∧
          env.reMatch (env.fencingStartPat n) line = true) := by
        rw [hst n (List.mem_cons_self _ _)]
        simp
      simp only [scanPeers, if_neg hokn, if_neg hstn]
      have hBrest : B ∈ rest := by
        rcases List.mem_cons.mp hB with h | h
        · exact absurd h.symm hnB
        · exact h
      exact ih (List.nodup_cons.mp hnd).2 hBrest
        (fun m hm => hok m (List.mem_cons_of_mem _ hm))
        (fun m hm => hst m (List.mem_cons_of_mem _ hm)) ps peer errs

theorem scanPeers_preserves_complete (env : Env) (line : String) :
    ∀ (ns : List Name) (ps : List (Name × String)) (peer : Option Name)
      (errs : List String) (n : Name),
    lookupS ps n = some "complete" →
    lookupS (scanPeers env line ns (ps, peer, errs)).1 n = some "complete" := by
  intro ns
  induction ns with
  | nil =>
    intro ps peer errs n h
    simpa [scanPeers] using h
  | cons m rest ih =>
    intro ps peer errs n h
    by_cases hok : env.reMatch (env.fencingOkPat m) line = true
    · simp only [scanPeers, if_pos hok]
      apply ih
      by_cases hmn : m = n
      · subst hmn
        exact lookupS_insertS_self _ _ _
      · rw [lookupS_insertS_ne _ _ _ _ hmn]
        exact h
    · simp only [scanPeers, if_neg hok]
      by_cases hstart : lookupS ps m ≠ some "complete" ∧
          env.reMatch (env.fencingStartPat m) line = true
      · rw [if_pos hstart]
        apply ih
        have hmn : m ≠ n := by
          intro hc
          subst hc
          exact hstart.1 h
        rw [lookupS_insertS_ne _ _ _ _ hmn]
        exact h
      · rw [if_neg hstart]
        exact ih ps peer errs n h

theorem fencingLoop_step_none (env : Env) (fuel fuel2 : Nat) (hf : fuel = fuel2 + 1)
    (w : Watch) (ps : List (Name × String)) (pl : List Name) (peer : Option Name)
    (st : CMState) (hp : w.polls = []) :
    fencingLoop env fuel w ps pl peer st = Except.ok (w, ps, pl, st) := by
  subst hf
  simp [fencingLoop, Watch.look, hp]

theorem fencingLoop_step_new (env : Env) (fuel fuel2 : Nat) (hf : fuel = fuel2 + 1)
    (w : Watch) (line : String) (idx : Nat) (rest : List (Option (String × Nat)))
    (ps ps1 : List (Name × String)) (pl : List Name) (peer : Option Name)
    (p : Name) (errs1 : List String) (st : CMState)
    (hp : w.polls = some (line, idx) :: rest)
    (hidx : idx < w.regexes.length)
    (hscan : scanPeers env line env.nodes (ps, peer, st.errorsToIgnore) =
      (ps1, some p, errs1))
    (hpne : p ≠ "") (hmem : p ∉ pl) :
    fencingLoop env fuel w ps pl peer st =
      fencingLoop env fuel2 ⟨w.regexes.eraseIdx idx, rest⟩ ps1 (pl ++ [p]) (some p)
        { st with errorsToIgnore := errs1 } := by
  subst hf
  simp [fencingLoop, Watch.look, hp, hidx, hscan, hpne, hmem]

theorem fencingLoop_step_old (env : Env) (fuel fuel2 : Nat) (hf : fuel = fuel2 + 1)
    (w : Watch) (line : String) (idx : Nat) (rest : List (Option (String × Nat)))
    (ps ps1 : List (Name × String)) (pl : List Name) (peer : Option Name)
    (p : Name) (errs1 : List String) (st : CMState)
    (hp : w.polls = some (line, idx) :: rest)
    (hidx : idx < w.regexes.length)
    (hscan : scanPeers env line env.nodes (ps, peer, st.errorsToIgnore) =
      (ps1, some p, errs1))
    (hpne : p ≠ "") (hmem : p ∈ pl) :
    fencingLoop env fuel w ps pl peer st =
      fencingLoop env fuel2 ⟨w.regexes.eraseIdx idx, rest⟩ ps1 pl (some p)
        { st with errorsToIgnore := errs1 } := by
  subst hf
  simp [fencingLoop, Watch.look, hp, hidx, hscan, hpne, hmem]

theorem fencing_cleanup_eq_of (env : Env) (w : Watch) (st : CMState)
    (w1 : Watch) (ps : List (Name × String)) (pl : List Name) (st1 : CMState)
    (good : Bool) (w2 : Watch) (st2 : CMState)
    (hcond : ¬(env.quorumAtCleanup = false ∧ 2 < env.nodes.length))
    (hloop : fencingLoop env (w.polls.length + 1) w
      (env.nodes.map fun n => (n, "unknown")) [] none st = Except.ok (w1, ps, pl, st1))
    (hph : fencingPhase2 env pl w1 ps st1 = Except.ok (good, w2, st2)) :
    fencing_cleanup env (some w) st =
      Except.ok ⟨if good = true then some pl else none, pl, ps, some w2, st2⟩ := by
  simp only [fencing_cleanup, if_neg hcond, hloop, hph]

/-- C4: given a watch session whose successive polls are a line matching
only peer B's "fencing started" pattern and then a line matching only B's
"fencing completed" pattern (and then nothing further), `fencing_cleanup`
returns exactly `[B]` and B's recorded phase ends `complete` (first
conjunct); and, in general, a peer whose phase is already `complete` is
never regressed by processing any later line — in particular a later
"started" match (second conjunct). -/
theorem fencing_cleanup_started_then_completed (env : Env) (w : Watch)
    (st : CMState) (B : Name) (lineS lineC : String) (i j : Nat)
    (hq : env.quorumAtCleanup = true)
    (hnd : env.nodes.Nodup) (hB : B ∈ env.nodes) (hBne : B ≠ "")
    (hpolls : w.polls = [some (lineS, i), some (lineC, j)])
    (hi : i < w.regexes.length) (hj : j < (w.regexes.eraseIdx i).length)
    (hSok : ∀ n ∈ env.nodes, env.reMatch (env.fencingOkPat n) lineS = false)
    (hSst : ∀ n ∈ env.nodes, env.reMatch (env.fencingStartPat n) lineS = true ↔ n = B)
    (hCok : ∀ n ∈ env.nodes, env.reMatch (env.fencingOkPat n) lineC = true ↔ n = B)
    (hCst : ∀ n ∈ env.nodes, env.reMatch (env.fencingStartPat n) lineC = false)
    (hprobe : env.atBoot = true → env.fenceProbe2 B = true) :
    (∃ r, fencing_cleanup env (some w) st = Except.ok r ∧
      r.ret = some [B] ∧ lookupS r.peerState B = some "complete") ∧
    (∀ (ns : List Name) (line : String) (ps : List (Name × String))
       (peer : Option Name) (errs : List String) (n : Name),
      lookupS ps n = some "complete" →
      lookupS (scanPeers env line ns (ps, peer, errs)).1 n = some "complete") := by
  constructor
  · have hcond : ¬(env.quorumAtCleanup = false ∧ 2 < env.nodes.length) := by
      simp [hq]
    have hlookupB : lookupS (env.nodes.map fun n => (n, "unknown")) B ≠
        some "complete" := by
      rw [lookupS_map_unknown _ _ hB]
      simp
    have hscan1 := scanPeers_start_only env lineS B env.nodes hnd hB hSok hSst
      (env.nodes.map fun n => (n, "unknown")) none st.errorsToIgnore hlookupB
    have hscan2 := scanPeers_ok_only env lineC B env.nodes hnd hB hCok hCst
      (insertS (env.nodes.map fun n => (n, "unknown")) B "in-progress") (some B)
      (st.errorsToIgnore ++ [env.fencingStartPat B])
    have hlen : w.polls.length = 2 := by rw [hpolls]; rfl
    have hstep1 := fencingLoop_step_new env (2 + 1) 2 rfl w lineS i
      [some (lineC, j)] (env.nodes.map fun n => (n, "unknown"))
      (insertS (env.nodes.map fun n => (n, "unknown")) B "in-progress") [] none B
      (st.errorsToIgnore ++ [env.fencingStartPat B]) st hpolls hi hscan1 hBne
      (List.not_mem_nil B)
    have hstep2 := fencingLoop_step_old env 2 1 rfl
      (⟨w.regexes.eraseIdx i, [some (lineC, j)]⟩ : Watch) lineC j []
      (insertS (env.nodes.map fun n => (n, "unknown")) B "in-progress")
      (insertS (insertS (env.nodes.map fun n => (n, "unknown")) B "in-progress")
        B "complete") ([] ++ [B]) (some B) B
      ((st.errorsToIgnore ++ [env.fencingStartPat B]) ++ [env.fencingOkPat B])
      ({ st with errorsToIgnore := st.errorsToIgnore ++ [env.fencingStartPat B] })
      rfl hj hscan2 hBne (by simp)
    have hstep3 := fencingLoop_step_none env 1 0 rfl
      (⟨(w.regexes.eraseIdx i).eraseIdx j, []⟩ : Watch)
      (insertS (insertS (env.nodes.map fun n => (n, "unknown")) B "in-progress")
        B "complete") ([] ++ [B]) (some B)
      ({ st with errorsToIgnore :=
        (st.errorsToIgnore ++ [env.fencingStartPat B]) ++ [env.fencingOkPat B] })
      rfl
    have hloopfull : fencingLoop env (w.polls.length + 1) w
        (env.nodes.map fun n => (n, "unknown")) [] none st =
        Except.ok (⟨(w.regexes.eraseIdx i).eraseIdx j, []⟩,
          insertS (insertS (env.nodes.map fun n => (n, "unknown")) B "in-progress")
            B "complete", [B],
          { st with errorsToIgnore :=
            (st.errorsToIgnore ++ [env.fencingStartPat B]) ++ [env.fencingOkPat B] }) := by
      rw [hlen, hstep1, hstep2, hstep3]
      rfl
    have hlk : lookupS (insertS (insertS (env.nodes.map fun n => (n, "unknown"))
        B "in-progress") B "complete") B = some "complete" :=
      lookupS_insertS_self _ _ _
    have hlkne : ¬(lookupS (insertS (insertS (env.nodes.map fun n => (n, "unknown"))
        B "in-progress") B "complete") B = some "in-progress") := by
      rw [hlk]
      simp
    have hphase : fencingPhase2 env [B]
        (⟨(w.regexes.eraseIdx i).eraseIdx j, []⟩ : Watch)
        (insertS (insertS (env.nodes.map fun n => (n, "unknown")) B "in-progress")
          B "complete")
        ({ st with errorsToIgnore :=
          (st.errorsToIgnore ++ [env.fencingStartPat B]) ++ [env.fencingOkPat B] }) =
        Except.ok (true, ⟨(w.regexes.eraseIdx i).eraseIdx j, []⟩,
          { shouldBeStatus := insertS st.shouldBeStatus B
              (if env.atBoot = true then "up" else "down"),
            errorsToIgnore :=
              (st.errorsToIgnore ++ [env.fencingStartPat B]) ++ [env.fencingOkPat B],
            trace := st.trace ++ [Event.waitUp B] }) := by
      by_cases hab : env.atBoot = true
      · simp [fencingPhase2, if_neg hlkne, hab, hprobe hab]
      · simp [fencingPhase2, if_neg hlkne, hab]
    have hclean := fencing_cleanup_eq_of env w st _ _ _ _ _ _ _ hcond hloopfull hphase
    refine ⟨_, hclean, rfl, ?_⟩
    exact lookupS_insertS_self _ _ _
  · intro ns line ps peer errs n hc
    exact scanPeers_preserves_complete env line ns ps peer errs n hc

/-- Two-node environment for the C4 witness. -/
def envC4 : Env := { defaultEnv with nodes := ["A", "B"] }

/-- Watch session for the C4 witness: polls yield B's "started" line then
B's "completed" line. -/
def wC4 : Watch :=
  ⟨["fence-ok B", "fence-start B"],
   [some ("fence-start B", 1), some ("fence-ok B", 0)]⟩

/-- Witness for C4: on the concrete started-then-completed session the
pass returns `[B]` with B's phase `complete`. -/
theorem fencing_cleanup_started_then_completed_witness :
    ∃ r, fencing_cleanup envC4 (some wC4) (mkState [("A", "up"), ("B", "down")]) =
      Except.ok r ∧ r.ret = some ["B"] ∧ lookupS r.peerState "B" = some "complete" :=
  (fencing_cleanup_started_then_completed envC4 wC4
    (mkState [("A", "up"), ("B", "down")]) "B" "fence-start B" "fence-ok B" 1 0
    rfl (by decide) (by decide) (by decide) rfl (by decide) (by decide)
    (by decide) (by decide) (by decide) (by decide) (by decide)).1

/-! ### C2: quick-mode startall start counts and the aggregate watch -/

/-- Trace of a `startall` run (empty on a raised exception). -/
def startallTrace (env : Env) (st : CMState) (nl : List Name) (quick : Bool) :
    List Event :=
  match startall env st nl quick with
  | Except.ok (_, s) => s.trace
  | Except.error _ => []

/-- Single-node environment for the C2 counterexample. -/
def envC2 : Env := { defaultEnv with nodes := ["n1"] }

/-- C2 counterexample: quick `startall` over the one-node list issues one
asynchronous start, not N−1 = 0 — the asynchronous loop runs over every
node of the list, the synchronously started first node included. -/
theorem startall_quick_async_counterexample :
    countEv (isAsyncStart envC2)
      (startallTrace envC2 (mkState [("n1", "down")]) ["n1"] true) = 1 ∧
    ¬(countEv (isAsyncStart envC2)
        (startallTrace envC2 (mkState [("n1", "down")]) ["n1"] true) =
      (["n1"] : List Name).length - 1) := by
  constructor
  · rfl
  · decide

theorem countEv_append (p : Event → Bool) (a b : List Event) :
    countEv p (a ++ b) = countEv p a + countEv p b := by
  simp [countEv]

theorem countEv_cons (p : Event → Bool) (e : Event) (tr : List Event) :
    countEv p (e :: tr) = (if p e = true then 1 else 0) + countEv p tr := by
  by_cases h : p e = true
  · simp [countEv, List.filter_cons, h, Nat.add_comm]
  · simp [countEv, List.filter_cons, h]

theorem countEv_nil (p : Event → Bool) : countEv p [] = 0 := rfl

theorem countEv_logs_zero (p : Event → Bool) (hp : ∀ m, p (Event.log m) = false)
    (f : String → String) :
    ∀ l : List String, countEv p (l.map fun r => Event.log (f r)) = 0 := by
  intro l
  induction l with
  | nil => rfl
  | cons r rest ih =>
    rw [List.map_cons, countEv_cons, hp]
    simpa using ih

theorem waitFold_facts (nl : List Name) (p : Event → Bool)
    (hp : p (Event.waitAllUp nl) = false) :
    ∀ (l : List Name) (s : CMState),
    countEv p ((l.foldl (waitStep nl) s)).trace = countEv p s.trace ∧
    (l.foldl (waitStep nl) s).shouldBeStatus = s.shouldBeStatus ∧
    (l.foldl (waitStep nl) s).errorsToIgnore = s.errorsToIgnore := by
  intro l
  induction l with
  | nil => intro s; exact ⟨rfl, rfl, rfl⟩
  | cons n rest ih =>
    intro s
    rw [List.foldl_cons]
    have hstep : countEv p (waitStep nl s n).trace = countEv p s.trace ∧
        (waitStep nl s n).shouldBeStatus = s.shouldBeStatus ∧
        (waitStep nl s n).errorsToIgnore = s.errorsToIgnore := by
      unfold waitStep
      by_cases hg : lookupS s.shouldBeStatus n = some "down"
      · rw [if_pos hg]
        refine ⟨?_, rfl, rfl⟩
        rw [countEv_append]
        rw [countEv_cons]
        rw [hp]
        simp [countEv]
      · rw [if_neg hg]
        exact ⟨rfl, rfl, rfl⟩
    obtain ⟨h1, h2, h3⟩ := ih (waitStep nl s n)
    exact ⟨h1.trans hstep.1, h2.trans hstep.2.1, h3.trans hstep.2.2⟩

/-- The trace block of one `StartaCMnoBlock` call per listed node. -/
def asyncBlocks (env : Env) : List Name → List Event
  | [] => []
  | n :: rest =>
    Event.installConfig n :: Event.cmd n env.startCmd false :: asyncBlocks env rest

theorem noBlockFold_trace (env : Env) :
    ∀ (l : List Name) (s : CMState),
    (l.foldl (noBlockStep env) s).trace = s.trace ++ asyncBlocks env l := by
  intro l
  induction l with
  | nil => intro s; simp [asyncBlocks]
  | cons n rest ih =>
    intro s
    rw [List.foldl_cons, ih]
    simp [noBlockStep, StartaCMnoBlock, asyncBlocks]

theorem countEv_asyncBlocks_async (env : Env) :
    ∀ l : List Name, countEv (isAsyncStart env) (asyncBlocks env l) = l.length := by
  intro l
  induction l with
  | nil => rfl
  | cons n rest ih =>
    have hc : isAsyncStart env (Event.cmd n env.startCmd false) = true := by
      simp [isAsyncStart]
    rw [asyncBlocks, countEv_cons, countEv_cons, hc]
    simp [isAsyncStart, ih, Nat.add_comm]

theorem countEv_asyncBlocks_zero (env : Env) (p : Event → Bool)
    (hpi : ∀ n, p (Event.installConfig n) = false)
    (hpc : ∀ n, p (Event.cmd n env.startCmd false) = false) :
    ∀ l : List Name, countEv p (asyncBlocks env l) = 0 := by
  intro l
  induction l with
  | nil => rfl
  | cons n rest ih =>
    rw [asyncBlocks, countEv_cons, countEv_cons, hpi, hpc]
    simpa using ih

/-- The trace delta of a full-path successful `StartaCM`. -/
def startDelta (env : Env) (tbl : List (Name × String)) (node : Name) : List Event :=
  [Event.installConfig node,
   Event.watchArmed "StartaCM" (startPatterns env tbl node),
   Event.cmd node env.startCmd true, Event.lookforall "StartaCM"] ++
  (env.watchUnmatched node).map
    (fun r => Event.log ("Warn: Startup pattern not found: " ++ r))

theorem StartaCM_full_success (env : Env) (s : CMState) (node : Name)
    (hdown : lookupS s.shouldBeStatus node = some "down")
    (halready : ¬(env.statAlready node = true ∧ env.stableAlready node = true))
    (hq : env.quorumAtPrepare = true)
    (hrc : env.rshRC node env.startCmd = 0)
    (hw : env.watchResult node = true ∧ env.stableAfterWatch node = true) :
    StartaCM env s node = Except.ok (some 1,
      { shouldBeStatus := insertS (insertS s.shouldBeStatus node "any") node "up",
        errorsToIgnore := s.errorsToIgnore,
        trace := s.trace ++ startDelta env s.shouldBeStatus node }) := by
  have hnotnone : (lookupS s.shouldBeStatus node).isNone = false := by
    rw [hdown]; rfl
  have hnd : ¬(lookupS s.shouldBeStatus node ≠ some "down") := fun hc => hc hdown
  have hrc2 : ¬(env.rshRC node env.startCmd ≠ 0) := fun hc => hc hrc
  simp only [StartaCM, hnotnone, Bool.false_eq_true, if_false, if_neg hnd,
    if_neg halready, prepare_fencing_watcher, if_pos hq, if_neg hrc2, if_pos hw,
    fencing_cleanup]
  simp [startDelta, startPatterns, List.append_assoc]

theorem countEv_startDelta_sync (env : Env) (tbl : List (Name × String))
    (node : Name) : countEv (isSyncStart env) (startDelta env tbl node) = 1 := by
  have hc : isSyncStart env (Event.cmd node env.startCmd true) = true := by
    simp [isSyncStart]
  have hlogs := countEv_logs_zero (isSyncStart env) (fun m => rfl)
    (fun r => "Warn: Startup pattern not found: " ++ r) (env.watchUnmatched node)
  simp only [startDelta, List.cons_append, List.nil_append, countEv_cons, hc]
  simp [hlogs, isSyncStart]

theorem countEv_startDelta_zero (env : Env) (tbl : List (Name × String))
    (node : Name) (p : Event → Bool)
    (h1 : p (Event.installConfig node) = false)
    (h2 : ∀ pats, p (Event.watchArmed "StartaCM" pats) = false)
    (h3 : p (Event.cmd node env.startCmd true) = false)
    (h4 : p (Event.lookforall "StartaCM") = false)
    (h5 : ∀ m, p (Event.log m) = false) :
    countEv p (startDelta env tbl node) = 0 := by
  have hlogs := countEv_logs_zero p h5
    (fun r => "Warn: Startup pattern not found: " ++ r) (env.watchUnmatched node)
  simp only [startDelta, List.cons_append, List.nil_append, countEv_cons,
    h1, h2, h3, h4]
  simp [hlogs]

theorem mem_fastStartPats (env : Env) (first : Name) :
    ∀ (nl : List Name) (n : Name), n ∈ nl →
    env.patLocalStarted n ∈ fastStartPats env first nl := by
  intro nl
  induction nl with
  | nil => intro n h; cases h
  | cons m rest ih =>
    intro n h
    rcases List.mem_cons.mp h with h1 | h1
    · subst h1
      simp [fastStartPats]
    · have hmem := ih n h1
      simp only [fastStartPats, List.foldr_cons] at hmem ⊢
      rcases List.mem_append.mp hmem with h2 | h2
      · exact List.mem_append_left _ h2
      · apply List.mem_append_right
        apply List.mem_append_right
        exact h2

/-- C2 amended: quick-mode `startall` on a non-empty node list whose
first node starts successfully through the full `StartaCM` path issues
exactly one synchronous start (the first node) and exactly N asynchronous
starts — one per node of the list, the synchronously started first node
included (not N−1) — and arms and blocks on exactly one aggregate
fast-start watch whose pattern list covers every node of the list. -/
theorem startall_quick_counts (env : Env) (st : CMState) (first : Name)
    (rest : List Name)
    (hdown : lookupS st.shouldBeStatus first = some "down")
    (halready : ¬(env.statAlready first = true ∧ env.stableAlready first = true))
    (hq : env.quorumAtPrepare = true)
    (hrc : env.rshRC first env.startCmd = 0)
    (hw : env.watchResult first = true ∧ env.stableAfterWatch first = true) :
    ∃ rc s2, startall env st (first :: rest) true = Except.ok (rc, s2) ∧
      countEv (isSyncStart env) s2.trace = countEv (isSyncStart env) st.trace + 1 ∧
      countEv (isAsyncStart env) s2.trace =
        countEv (isAsyncStart env) st.trace + (first :: rest).length ∧
      countEv (isLookOn "fast-start") s2.trace =
        countEv (isLookOn "fast-start") st.trace + 1 ∧
      countEv (isArmOn "fast-start") s2.trace =
        countEv (isArmOn "fast-start") st.trace + 1 ∧
      Event.watchArmed "fast-start" (fastStartPats env first (first :: rest))
        ∈ s2.trace ∧
      (∀ n ∈ first :: rest,
        env.patLocalStarted n ∈ fastStartPats env first (first :: rest)) := by
  obtain ⟨hcw1, hsA, heA⟩ := waitFold_facts (first :: rest) (isSyncStart env) rfl
    (first :: rest) st
  obtain ⟨hcw2, -, -⟩ := waitFold_facts (first :: rest) (isAsyncStart env) rfl
    (first :: rest) st
  obtain ⟨hcw3, -, -⟩ := waitFold_facts (first :: rest) (isLookOn "fast-start") rfl
    (first :: rest) st
  obtain ⟨hcw4, -, -⟩ := waitFold_facts (first :: rest) (isArmOn "fast-start") rfl
    (first :: rest) st
  have hd2 : lookupS ((first :: rest).foldl (waitStep (first :: rest))
      st).shouldBeStatus first = some "down" := by
    rw [hsA]
    exact hdown
  have hstart := StartaCM_full_success env
    ({ (first :: rest).foldl (waitStep (first :: rest)) st with trace :=
        ((first :: rest).foldl (waitStep (first :: rest)) st).trace ++
          [Event.watchArmed "fast-start" (fastStartPats env first (first :: rest))] })
    first hd2 halready hq hrc hw
  have hzeroSync := countEv_asyncBlocks_zero env (isSyncStart env)
    (fun n => rfl) (fun n => by simp [isSyncStart])
  have hzeroLook := countEv_asyncBlocks_zero env (isLookOn "fast-start")
    (fun n => rfl) (fun n => rfl)
  have hzeroArm := countEv_asyncBlocks_zero env (isArmOn "fast-start")
    (fun n => rfl) (fun n => rfl)
  have hdSync := countEv_startDelta_sync env
    ((first :: rest).foldl (waitStep (first :: rest)) st).shouldBeStatus first
  have hdAsync := countEv_startDelta_zero env
    ((first :: rest).foldl (waitStep (first :: rest)) st).shouldBeStatus first
    (isAsyncStart env) rfl (fun pats => rfl) (by simp [isAsyncStart]) rfl
    (fun m => rfl)
  have hdLook := countEv_startDelta_zero env
    ((first :: rest).foldl (waitStep (first :: rest)) st).shouldBeStatus first
    (isLookOn "fast-start") rfl (fun pats => rfl) rfl rfl (fun m => rfl)
  have hdArm := countEv_startDelta_zero env
    ((first :: rest).foldl (waitStep (first :: rest)) st).shouldBeStatus first
    (isArmOn "fast-start") rfl (fun pats => rfl) rfl rfl (fun m => rfl)
  have hlogsSync := countEv_logs_zero (isSyncStart env) (fun m => rfl)
    (fun r => "Warn: Startup pattern not found: " ++ r) env.aggUnmatched
  have hlogsAsync := countEv_logs_zero (isAsyncStart env) (fun m => rfl)
    (fun r => "Warn: Startup pattern not found: " ++ r) env.aggUnmatched
  have hlogsLook := countEv_logs_zero (isLookOn "fast-start") (fun m => rfl)
    (fun r => "Warn: Startup pattern not found: " ++ r) env.aggUnmatched
  have hlogsArm := countEv_logs_zero (isArmOn "fast-start") (fun m => rfl)
    (fun r => "Warn: Startup pattern not found: " ++ r) env.aggUnmatched
  simp only [startall, if_neg (show ¬((first :: rest) = ([] : List Name)) by simp),
    if_neg (show ¬(true = false) by decide), hstart]
  by_cases hfs : env.finalStable = true
  · rw [if_pos hfs]
    refine ⟨1, _, rfl, ?_, ?_, ?_, ?_, ?_, ?_⟩
    · simp only [noBlockFold_trace, countEv_append, hzeroSync, hdSync, hcw1,
        countEv_cons, isSyncStart, hlogsSync]
      simp [countEv_nil]
    · simp only [noBlockFold_trace, countEv_append, countEv_asyncBlocks_async,
        hdAsync, hcw2, countEv_cons, isAsyncStart, hlogsAsync]
      simp [countEv_nil]
    · simp only [noBlockFold_trace, countEv_append, hzeroLook, hdLook, hcw3,
        countEv_cons, isLookOn, hlogsLook]
      simp [countEv_nil]
    · simp only [noBlockFold_trace, countEv_append, hzeroArm, hdArm, hcw4,
        countEv_cons, isArmOn, hlogsArm]
      simp [countEv_nil]
    · rw [noBlockFold_trace]
      apply List.mem_append_left
      apply List.mem_append_left
      apply List.mem_append_left
      apply List.mem_append_left
      exact List.mem_append_right _ (List.mem_singleton.mpr rfl)
    · exact fun n hn => mem_fastStartPats env first (first :: rest) n hn
  · rw [if_neg hfs]
    refine ⟨0, _, rfl, ?_, ?_, ?_, ?_, ?_, ?_⟩
    · simp only [noBlockFold_trace, countEv_append, hzeroSync, hdSync, hcw1,
        countEv_cons, isSyncStart, hlogsSync]
      simp [countEv_nil]
    · simp only [noBlockFold_trace, countEv_append, countEv_asyncBlocks_async,
        hdAsync, hcw2, countEv_cons, isAsyncStart, hlogsAsync]
      simp [countEv_nil]
    · simp only [noBlockFold_trace, countEv_append, hzeroLook, hdLook, hcw3,
        countEv_cons, isLookOn, hlogsLook]
      simp [countEv_nil]
    · simp only [noBlockFold_trace, countEv_append, hzeroArm, hdArm, hcw4,
        countEv_cons, isArmOn, hlogsArm]
      simp [countEv_nil]
    · rw [noBlockFold_trace]
      apply List.mem_append_left
      apply List.mem_append_left
      apply List.mem_append_left
      apply List.mem_append_left
      apply List.mem_append_left
      exact List.mem_append_right _ (List.mem_singleton.mpr rfl)
    · exact fun n hn => mem_fastStartPats env first (first :: rest) n hn

/-- Witness for the amended C2: a cooperative two-node cluster, quick
start of both nodes. -/
theorem startall_quick_counts_witness :
    ∃ rc s2, startall { defaultEnv with nodes := ["n1", "n2"] }
        (mkState [("n1", "down"), ("n2", "down")]) ["n1", "n2"] true =
        Except.ok (rc, s2) ∧
      countEv (isSyncStart { defaultEnv with nodes := ["n1", "n2"] }) s2.trace =
        countEv (isSyncStart { defaultEnv with nodes := ["n1", "n2"] })
          (mkState [("n1", "down"), ("n2", "down")]).trace + 1 ∧
      countEv (isAsyncStart { defaultEnv with nodes := ["n1", "n2"] }) s2.trace =
        countEv (isAsyncStart { defaultEnv with nodes := ["n1", "n2"] })
          (mkState [("n1", "down"), ("n2", "down")]).trace +
          (["n1", "n2"] : List Name).length ∧
      countEv (isLookOn "fast-start") s2.trace =
        countEv (isLookOn "fast-start")
          (mkState [("n1", "down"), ("n2", "down")]).trace + 1 ∧
      countEv (isArmOn "fast-start") s2.trace =
        countEv (isArmOn "fast-start")
          (mkState [("n1", "down"), ("n2", "down")]).trace + 1 ∧
      Event.watchArmed "fast-start"
        (fastStartPats { defaultEnv with nodes := ["n1", "n2"] } "n1" ["n1", "n2"])
        ∈ s2.trace ∧
      (∀ n ∈ (["n1", "n2"] : List Name),
        ({ defaultEnv with nodes := ["n1", "n2"] } : Env).patLocalStarted n ∈
          fastStartPats { defaultEnv with nodes := ["n1", "n2"] } "n1" ["n1", "n2"]) :=
  startall_quick_counts { defaultEnv with nodes := ["n1", "n2"] }
    (mkState [("n1", "down"), ("n2", "down")]) "n1" ["n2"] rfl (by decide) rfl rfl
    ⟨rfl, rfl⟩

/-! ### C1 (amended): entries after a genuine, full-path stop / start,
accounting for the started node fencing itself during startup -/

theorem fencingPhase2_status_cases (env : Env) :
    ∀ (l : List Name) (w : Watch) (ps : List (Name × String)) (st : CMState)
      (res : Bool × Watch × CMState) (q : Name),
    fencingPhase2 env l w ps st = Except.ok res →
    lookupS res.2.2.shouldBeStatus q = lookupS st.shouldBeStatus q ∨
    lookupS res.2.2.shouldBeStatus q =
      some (if env.atBoot = true then "up" else "down") := by
  intro l
  induction l with
  | nil =>
    intro w ps st res q h
    cases h
    exact Or.inl rfl
  | cons p rest ih =>
    intro w ps st res q h
    simp only [fencingPhase2] at h
    split at h
    · exact Except.noConfusion h
    · rename_i w1 heq
      by_cases hpq : p = q
      · subst hpq
        split at h
        · rename_i hb
          split at h
          · rcases ih _ _ _ _ _ h with h1 | h1
            · right
              rw [h1, if_pos hb]
              exact lookupS_insertS_self _ _ _
            · exact Or.inr h1
          · cases h
            right
            rw [if_pos hb]
            exact lookupS_insertS_self _ _ _
        · rename_i hb
          rcases ih _ _ _ _ _ h with h1 | h1
          · right
            rw [h1, if_neg hb]
            exact lookupS_insertS_self _ _ _
          · exact Or.inr h1
      · split at h
        · split at h
          · rcases ih _ _ _ _ _ h with h1 | h1
            · left
              rw [h1]
              exact lookupS_insertS_ne _ _ _ _ hpq
            · exact Or.inr h1
          · cases h
            left
            exact lookupS_insertS_ne _ _ _ _ hpq
        · rcases ih _ _ _ _ _ h with h1 | h1
          · left
            rw [h1]
            exact lookupS_insertS_ne _ _ _ _ hpq
          · exact Or.inr h1

theorem fencing_cleanup_status_cases (env : Env) (stonith : Option Watch)
    (st : CMState) (r : FCResult) (q : Name)
    (h : fencing_cleanup env stonith st = Except.ok r) :
    lookupS r.st.shouldBeStatus q = lookupS st.shouldBeStatus q ∨
    lookupS r.st.shouldBeStatus q =
      some (if env.atBoot = true then "up" else "down") := by
  cases stonith with
  | none =>
    simp only [fencing_cleanup] at h
    cases h
    exact Or.inl rfl
  | some w =>
    simp only [fencing_cleanup] at h
    by_cases hq : env.quorumAtCleanup = false ∧ 2 < env.nodes.length
    · rw [if_pos hq] at h
      cases h
      exact Or.inl rfl
    · rw [if_neg hq] at h
      split at h
      · exact Except.noConfusion h
      · rename_i w1 ps pl st1 hloop
        split at h
        · exact Except.noConfusion h
        · rename_i good w2 st2 hph
          cases h
          have hst1 : st1.shouldBeStatus = st.shouldBeStatus :=
            fencingLoop_keeps_status env _ _ _ _ _ _ _ hloop
          rcases fencingPhase2_status_cases env pl _ _ _ _ q hph with h1 | h1
          · left
            rw [h1, hst1]
          · exact Or.inr h1

theorem StartaCM_success_entry (env : Env) (st : CMState) (node : Name)
    (hdown : lookupS st.shouldBeStatus node = some "down")
    (halready : ¬(env.statAlready node = true ∧ env.stableAlready node = true)) :
    ∀ (st2 : CMState) (k : Nat), StartaCM env st node = Except.ok (some k, st2) →
    lookupS st2.shouldBeStatus node = some "up" ∨
    (env.atBoot = false ∧ lookupS st2.shouldBeStatus node = some "down") := by
  intro st2 k h
  have hnotnone : (lookupS st.shouldBeStatus node).isNone = false := by
    rw [hdown]; rfl
  have hnd : ¬(lookupS st.shouldBeStatus node ≠ some "down") := fun hc => hc hdown
  simp only [StartaCM, hnotnone, Bool.false_eq_true, if_false, if_neg hnd,
    if_neg halready] at h
  split at h
  · split at h
    · exact Except.noConfusion h
    · simp at h
  · split at h
    · split at h
      · exact Except.noConfusion h
      · rename_i r heq
        simp only [Except.ok.injEq, Prod.mk.injEq] at h
        obtain ⟨-, hst⟩ := h
        subst hst
        rcases fencing_cleanup_status_cases env _ _ _ node heq with h1 | h1
        · left
          rw [h1]
          exact lookupS_insertS_self _ _ _
        · by_cases hab : env.atBoot = true
          · rw [hab] at h1
            exact Or.inl (by simpa using h1)
          · right
            refine ⟨by simpa using hab, ?_⟩
            rw [if_neg hab] at h1
            exact h1
    · split at h
      · split at h
        · exact Except.noConfusion h
        · rename_i r heq
          simp only [Except.ok.injEq, Prod.mk.injEq] at h
          obtain ⟨-, hst⟩ := h
          subst hst
          rcases fencing_cleanup_status_cases env _ _ _ node heq with h1 | h1
          · left
            rw [h1]
            exact lookupS_insertS_self _ _ _
          · by_cases hab : env.atBoot = true
            · rw [hab] at h1
              exact Or.inl (by simpa using h1)
            · right
              refine ⟨by simpa using hab, ?_⟩
              rw [if_neg hab] at h1
              exact h1
      · simp at h

theorem StartaCM_success_entry_quorum (env : Env) (st : CMState) (node : Name)
    (hdown : lookupS st.shouldBeStatus node = some "down")
    (halready : ¬(env.statAlready node = true ∧ env.stableAlready node = true))
    (hq : env.quorumAtPrepare = true) :
    ∀ (st2 : CMState) (k : Nat), StartaCM env st node = Except.ok (some k, st2) →
    lookupS st2.shouldBeStatus node = some "up" := by
  intro st2 k h
  have hnotnone : (lookupS st.shouldBeStatus node).isNone = false := by
    rw [hdown]; rfl
  have hnd : ¬(lookupS st.shouldBeStatus node ≠ some "down") := fun hc => hc hdown
  simp only [StartaCM, hnotnone, Bool.false_eq_true, if_false, if_neg hnd,
    if_neg halready, prepare_fencing_watcher, if_pos hq, fencing_cleanup] at h
  split at h
  · simp at h
  · split at h
    · simp only [Except.ok.injEq, Prod.mk.injEq] at h
      obtain ⟨-, hst⟩ := h
      subst hst
      exact lookupS_insertS_self _ _ _
    · split at h
      · simp only [Except.ok.injEq, Prod.mk.injEq] at h
        obtain ⟨-, hst⟩ := h
        subst hst
        exact lookupS_insertS_self _ _ _
      · simp at h

/-- C1 amended: when `StopaCM` succeeds after actually issuing the stop
command (entry `up`, or `force`), the entry ends `down`.  When `StartaCM`
is called on a node whose entry is `down` and returns success other than
through the was-already-started shortcut, the entry ends `up` unless the
fencing cleanup run by the start identified the started node itself as
fenced, in which case the entry holds the at-boot policy value — in
particular `down` when `at-boot` is false (second conjunct); when quorum
was held at fencing-watch preparation (so no watch was armed) or `at-boot`
is true, the entry ends exactly `up` (third conjunct).  The early-success
returns of both functions (`StopaCM` on a not-`up` entry without force,
`StartaCM` on a not-`down` entry or the was-already-started check) can
return success with the entry not in the claimed state. -/
theorem stop_start_success_status_amended (env : Env) (st : CMState) (node : Name)
    (force : Bool) :
    ((lookupS st.shouldBeStatus node = some "up" ∨ force = true) →
      env.rshRC node env.stopCmd = 0 →
      (StopaCM env st node force).1 = some 1 ∧
      lookupS (StopaCM env st node force).2.shouldBeStatus node = some "down")
    ∧
    (lookupS st.shouldBeStatus node = some "down" →
      ¬(env.statAlready node = true ∧ env.stableAlready node = true) →
      ∀ (st2 : CMState) (k : Nat), StartaCM env st node = Except.ok (some k, st2) →
      lookupS st2.shouldBeStatus node = some "up" ∨
      (env.atBoot = false ∧ lookupS st2.shouldBeStatus node = some "down"))
    ∧
    (lookupS st.shouldBeStatus node = some "down" →
      ¬(env.statAlready node = true ∧ env.stableAlready node = true) →
      env.quorumAtPrepare = true ∨ env.atBoot = true →
      ∀ (st2 : CMState) (k : Nat), StartaCM env st node = Except.ok (some k, st2) →
      lookupS st2.shouldBeStatus node = some "up") := by
  refine ⟨?_, ?_, ?_⟩
  · intro hup hrc
    have hguard : ¬(lookupS st.shouldBeStatus node ≠ some "up" ∧ force = false) := by
      rcases hup with h | h
      · exact fun hc => hc.1 h
      · intro hc
        rw [h] at hc
        exact absurd hc.2 (by decide)
    have hEq : StopaCM env st node force =
        (some 1, { st with
          shouldBeStatus := insertS st.shouldBeStatus node "down",
          trace := st.trace ++ [Event.cmd node env.stopCmd true] }) := by
      simp only [StopaCM, if_neg hguard, if_pos hrc]
    rw [hEq]
    exact ⟨rfl, lookupS_insertS_self _ _ _⟩
  · intro hdown halready
    exact StartaCM_success_entry env st node hdown halready
  · intro hdown halready hqb st2 k h
    rcases hqb with hq | hb
    · exact StartaCM_success_entry_quorum env st node hdown halready hq st2 k h
    · rcases StartaCM_success_entry env st node hdown halready st2 k h with h1 | h1
      · exact h1
      · rw [hb] at h1
        exact absurd h1.1 (by decide)

/-- Environment for the self-fencing branch of the C1 witness: quorum is
absent when the fencing watch is prepared, so the started node's own
fencing patterns are armed, and the watch then observes that node's own
fencing-ok line. -/
def envC1b : Env :=
  { defaultEnv with
    nodes := ["n1", "n2"]
    quorumAtPrepare := false
    stonithPolls := [some ("fence-ok n1", 0)] }

/-- The same self-fencing environment with the `at-boot` policy set. -/
def envC1d : Env := { envC1b with atBoot := true }

/-- Final state of the C1 witness run in which the started node is fenced
during its own startup (`at-boot` false). -/
def stC1bOut : CMState :=
  match StartaCM envC1b (mkState [("n1", "down"), ("n2", "up")]) "n1" with
  | Except.ok (_, s) => s
  | Except.error _ => mkState []

/-- Final state of the C1 witness run with quorum held throughout. -/
def stC1cOut : CMState :=
  match StartaCM defaultEnv (mkState [("n1", "down")]) "n1" with
  | Except.ok (_, s) => s
  | Except.error _ => mkState []

/-- Final state of the C1 witness run with self-fencing and `at-boot`. -/
def stC1dOut : CMState :=
  match StartaCM envC1d (mkState [("n1", "down"), ("n2", "up")]) "n1" with
  | Except.ok (_, s) => s
  | Except.error _ => mkState []

/-- Witness for the amended C1: the forced stop ends `down`; a successful
start during which the node fenced itself ends with the entry at the
at-boot policy value (here `down`); with quorum held the entry ends `up`;
with `at-boot` set it ends `up` even after self-fencing. -/
theorem stop_start_success_status_amended_witness :
    ((StopaCM defaultEnv (mkState [("n1", "up")]) "n1" false).1 = some 1 ∧
      lookupS (StopaCM defaultEnv (mkState [("n1", "up")]) "n1" false).2.shouldBeStatus
        "n1" = some "down") ∧
    (lookupS stC1bOut.shouldBeStatus "n1" = some "up" ∨
      (envC1b.atBoot = false ∧ lookupS stC1bOut.shouldBeStatus "n1" = some "down")) ∧
    lookupS stC1cOut.shouldBeStatus "n1" = some "up" ∧
    lookupS stC1dOut.shouldBeStatus "n1" = some "up" :=
  ⟨(stop_start_success_status_amended defaultEnv (mkState [("n1", "up")]) "n1" false).1
      (Or.inl rfl) rfl,
   (stop_start_success_status_amended envC1b (mkState [("n1", "down"), ("n2", "up")])
      "n1" false).2.1 rfl (by decide) stC1bOut 1 rfl,
   (stop_start_success_status_amended defaultEnv (mkState [("n1", "down")]) "n1"
      false).2.2 rfl (by decide) (Or.inl rfl) stC1cOut 1 rfl,
   (stop_start_success_status_amended envC1d (mkState [("n1", "down"), ("n2", "up")])
      "n1" false).2.2 rfl (by decide) (Or.inr rfl) stC1dOut 1 rfl⟩

end CM
